import Mathlib

/-!
Verification development for the jwt-attacker repository.

Python strings are modelled as lists of Unicode code points (`PyStr`),
byte strings as lists of byte values (`Bytes`).  The functions below are
shallow embeddings of `jwt_attacker/utils.py`, `crack.py`, `forge.py` and
`alg_none.py`, together with the parts of the Python standard library
(`base64`/`binascii`, `json`) and of PyJWT that those modules call.
-/

namespace JwtAttacker

/-- A Python `str`: a sequence of Unicode code points. -/
abbrev PyStr := List Nat

/-- A Python `bytes` value: a sequence of byte values (each `< 256`). -/
abbrev Bytes := List Nat

/-- Convert a Lean string literal into the code-point model of a Python `str`. -/
def pyStr (s : String) : PyStr := s.data.map Char.toNat

/-! ## base64 (Python `base64` / `binascii`)

`base64.b64encode` groups the input bytes in threes, emitting four alphabet
characters per group and `'='` padding for a trailing group of one or two
bytes.  `base64.b64decode` (with the default `validate=False`) is
`binascii.a2b_base64` in non-strict mode: a streaming automaton that discards
characters outside the base64 alphabet, stops as soon as padding completes a
quad, and fails if data characters remain in an incomplete quad at the end. -/

/-- The standard base64 alphabet: sextet value to character code. -/
def b64EncChar (v : Nat) : Nat :=
  if v < 26 then 65 + v
  else if v < 52 then 97 + (v - 26)
  else if v < 62 then 48 + (v - 52)
  else if v = 62 then 43
  else 47

/-- Character code to sextet value; `none` for characters outside the
standard base64 alphabet (those are discarded in non-strict decoding). -/
def b64DecChar (c : Nat) : Option Nat :=
  if 65 ≤ c ∧ c ≤ 90 then some (c - 65)
  else if 97 ≤ c ∧ c ≤ 122 then some (26 + (c - 97))
  else if 48 ≤ c ∧ c ≤ 57 then some (52 + (c - 48))
  else if c = 43 then some 62
  else if c = 47 then some 63
  else none

/-- `base64.b64encode`: three input bytes become four alphabet characters;
a final group of one or two bytes is padded with `'='` (code 61). -/
def b64encode : Bytes → List Nat
  | [] => []
  | [b1] => [b64EncChar (b1 / 4), b64EncChar (b1 % 4 * 16), 61, 61]
  | [b1, b2] =>
      [b64EncChar (b1 / 4), b64EncChar (b1 % 4 * 16 + b2 / 16),
       b64EncChar (b2 % 16 * 4), 61]
  | b1 :: b2 :: b3 :: rest =>
      b64EncChar (b1 / 4) :: b64EncChar (b1 % 4 * 16 + b2 / 16) ::
      b64EncChar (b2 % 16 * 4 + b3 / 64) :: b64EncChar (b3 % 64) ::
      b64encode rest

/-- The decoding loop of `binascii.a2b_base64` in non-strict mode.
State: remaining input, position inside the current quad (0..3), the bits
carried over from the previous character, and the number of padding
characters seen in the current padding run.  A `'='` (61) with at least two
data characters in the quad counts toward padding and, once the quad is
complete, terminates decoding (remaining input is ignored); a `'='` earlier
in a quad is ignored.  Characters outside the alphabet are discarded.
Ending with a partially filled quad is an error (`Incorrect padding`). -/
def a2bLoop : List Nat → Nat → Nat → Nat → Option Bytes
  | [], 0, _, _ => some []
  | [], _ + 1, _, _ => none
  | c :: rest, qp, left, pads =>
    if c = 61 then
      if 2 ≤ qp then
        if 4 ≤ qp + (pads + 1) then some []
        else a2bLoop rest qp left (pads + 1)
      else a2bLoop rest qp left pads
    else
      match b64DecChar c with
      | none => a2bLoop rest qp left pads
      | some v =>
        match qp with
        | 0 => a2bLoop rest 1 v 0
        | 1 => (a2bLoop rest 2 (v % 16) 0).map (fun out => (left * 4 + v / 16) :: out)
        | 2 => (a2bLoop rest 3 (v % 4) 0).map (fun out => (left * 16 + v / 4) :: out)
        | _ => (a2bLoop rest 0 0 0).map (fun out => (left * 64 + v) :: out)

/-- `base64.b64decode` on a `str` argument: the string must be pure ASCII
(it is encoded with the `ascii` codec first, which raises otherwise), then
the non-strict `a2b_base64` automaton runs.  `none` models a raised
exception (`UnicodeEncodeError` or `binascii.Error`). -/
def b64decodePy (s : PyStr) : Option Bytes :=
  if s.all (fun c => c < 128) then a2bLoop s 0 0 0 else none

/-- Python `str.rstrip('=')`: remove trailing `'='` (61) characters. -/
def rstripEqChar : List Nat → List Nat
  | [] => []
  | c :: rest =>
    if rstripEqChar rest = [] ∧ c = 61 then [] else c :: rstripEqChar rest

/-- The URL-safe substitution applied by `base64url_encode` in
`utils.py`: `'+'` (43) becomes `'-'` (45) and `'/'` (47) becomes `'_'` (95). -/
def urlSub (c : Nat) : Nat :=
  if c = 43 then 45 else if c = 47 then 95 else c

/-- The inverse substitution applied by `base64url_decode` in `utils.py`:
`'-'` (45) becomes `'+'` (43) and `'_'` (95) becomes `'/'` (47). -/
def urlUnsub (c : Nat) : Nat :=
  if c = 45 then 43 else if c = 95 then 47 else c

/-- `utils.base64url_encode`: standard base64, URL-safe character
substitution, trailing padding stripped. -/
def base64url_encode (data : Bytes) : PyStr :=
  rstripEqChar ((b64encode data).map urlSub)

/-- The re-padding step of `utils.base64url_decode`: if the length is not a
multiple of four, append `'='` characters up to the next multiple of four. -/
def padTo4 (data : PyStr) : PyStr :=
  if data.length % 4 = 0 then data
  else data ++ List.replicate (4 - data.length % 4) 61

/-- `utils.base64url_decode`: pad the input back to a multiple of four
characters, undo the URL-safe substitution, and run `base64.b64decode`.
`none` models a raised exception. -/
def base64url_decode (data : PyStr) : Option Bytes :=
  b64decodePy ((padTo4 data).map urlUnsub)

/-! ### base64 round-trip facts -/

/-- Facts about encoded characters, checked over all 64 sextet values:
decoding inverts encoding, the URL substitution round-trips, and encoded
characters are ASCII, are not `'='`, and not `'.'`. -/
theorem b64Char_facts : ∀ v : Fin 64,
    b64DecChar (b64EncChar v.val) = some v.val ∧
    urlUnsub (urlSub (b64EncChar v.val)) = b64EncChar v.val ∧
    urlSub (b64EncChar v.val) ≠ 61 ∧
    urlSub (b64EncChar v.val) < 128 ∧
    urlSub (b64EncChar v.val) ≠ 46 ∧
    b64EncChar v.val < 128 ∧
    b64EncChar v.val ≠ 61 := by decide

theorem b64DecChar_encChar {v : Nat} (h : v < 64) :
    b64DecChar (b64EncChar v) = some v :=
  (b64Char_facts ⟨v, h⟩).1

theorem urlSub_encChar_ne_61 {v : Nat} (h : v < 64) :
    urlSub (b64EncChar v) ≠ 61 :=
  (b64Char_facts ⟨v, h⟩).2.2.1

theorem urlUnsub_urlSub_encChar {v : Nat} (h : v < 64) :
    urlUnsub (urlSub (b64EncChar v)) = b64EncChar v :=
  (b64Char_facts ⟨v, h⟩).2.1

theorem encChar_ne_61 {v : Nat} (h : v < 64) : b64EncChar v ≠ 61 :=
  (b64Char_facts ⟨v, h⟩).2.2.2.2.2.2

theorem rstripEqChar_append {a : List Nat} (b : List Nat)
    (h : ∀ c ∈ a, c ≠ 61) :
    rstripEqChar (a ++ b) = a ++ rstripEqChar b := by
  induction a with
  | nil => rfl
  | cons c rest ih =>
    have hc : c ≠ 61 := h c (by simp)
    have ih2 := ih (fun x hx => h x (by simp [hx]))
    show rstripEqChar (c :: (rest ++ b)) = _
    simp only [rstripEqChar, ih2]
    rw [if_neg (fun hcon => hc hcon.2)]
    simp

/-! ### Stepping lemmas for the `a2b_base64` automaton -/

theorem a2b_step0 {c v : Nat} (rest : List Nat) (left pads : Nat)
    (hne : c ≠ 61) (hd : b64DecChar c = some v) :
    a2bLoop (c :: rest) 0 left pads = a2bLoop rest 1 v 0 := by
  simp [a2bLoop, hne, hd]

theorem a2b_step1 {c v : Nat} (rest : List Nat) (left pads : Nat)
    (hne : c ≠ 61) (hd : b64DecChar c = some v) :
    a2bLoop (c :: rest) 1 left pads =
      (a2bLoop rest 2 (v % 16) 0).map (fun out => (left * 4 + v / 16) :: out) := by
  simp [a2bLoop, hne, hd]

theorem a2b_step2 {c v : Nat} (rest : List Nat) (left pads : Nat)
    (hne : c ≠ 61) (hd : b64DecChar c = some v) :
    a2bLoop (c :: rest) 2 left pads =
      (a2bLoop rest 3 (v % 4) 0).map (fun out => (left * 16 + v / 4) :: out) := by
  simp [a2bLoop, hne, hd]

theorem a2b_step3 {c v : Nat} (rest : List Nat) (left pads : Nat)
    (hne : c ≠ 61) (hd : b64DecChar c = some v) :
    a2bLoop (c :: rest) 3 left pads =
      (a2bLoop rest 0 0 0).map (fun out => (left * 64 + v) :: out) := by
  simp [a2bLoop, hne, hd]

theorem a2b_pad2_first (rest : List Nat) (left : Nat) :
    a2bLoop (61 :: rest) 2 left 0 = a2bLoop rest 2 left 1 := by
  simp [a2bLoop]

theorem a2b_pad2_second (rest : List Nat) (left : Nat) :
    a2bLoop (61 :: rest) 2 left 1 = some [] := by
  simp [a2bLoop]

theorem a2b_pad3 (rest : List Nat) (left : Nat) :
    a2bLoop (61 :: rest) 3 left 0 = some [] := by
  simp [a2bLoop]

/-- Decoding the padded standard base64 encoding recovers the input bytes. -/
theorem a2b_b64encode : ∀ (b : Bytes), (∀ x ∈ b, x < 256) →
    a2bLoop (b64encode b) 0 0 0 = some b
  | [], _ => rfl
  | [b1], h => by
      have hb1 : b1 < 256 := h b1 (by simp)
      have hv1 : b1 / 4 < 64 := by omega
      have hv2 : b1 % 4 * 16 < 64 := by omega
      show a2bLoop
        (b64EncChar (b1 / 4) :: b64EncChar (b1 % 4 * 16) :: 61 :: 61 :: []) 0 0 0 = _
      rw [a2b_step0 _ _ _ (encChar_ne_61 hv1) (b64DecChar_encChar hv1),
        a2b_step1 _ _ _ (encChar_ne_61 hv2) (b64DecChar_encChar hv2),
        a2b_pad2_first, a2b_pad2_second]
      simp
      omega
  | [b1, b2], h => by
      have hb1 : b1 < 256 := h b1 (by simp)
      have hb2 : b2 < 256 := h b2 (by simp)
      have hv1 : b1 / 4 < 64 := by omega
      have hv2 : b1 % 4 * 16 + b2 / 16 < 64 := by omega
      have hv3 : b2 % 16 * 4 < 64 := by omega
      show a2bLoop
        (b64EncChar (b1 / 4) :: b64EncChar (b1 % 4 * 16 + b2 / 16) ::
          b64EncChar (b2 % 16 * 4) :: 61 :: []) 0 0 0 = _
      rw [a2b_step0 _ _ _ (encChar_ne_61 hv1) (b64DecChar_encChar hv1),
        a2b_step1 _ _ _ (encChar_ne_61 hv2) (b64DecChar_encChar hv2),
        a2b_step2 _ _ _ (encChar_ne_61 hv3) (b64DecChar_encChar hv3),
        a2b_pad3]
      simp
      constructor
      · omega
      · omega
  | b1 :: b2 :: b3 :: rest, h => by
      have hb1 : b1 < 256 := h b1 (by simp)
      have hb2 : b2 < 256 := h b2 (by simp)
      have hb3 : b3 < 256 := h b3 (by simp)
      have hv1 : b1 / 4 < 64 := by omega
      have hv2 : b1 % 4 * 16 + b2 / 16 < 64 := by omega
      have hv3 : b2 % 16 * 4 + b3 / 64 < 64 := by omega
      have hv4 : b3 % 64 < 64 := by omega
      have ih := a2b_b64encode rest (fun x hx => h x (by simp [hx]))
      show a2bLoop
        (b64EncChar (b1 / 4) :: b64EncChar (b1 % 4 * 16 + b2 / 16) ::
          b64EncChar (b2 % 16 * 4 + b3 / 64) :: b64EncChar (b3 % 64) ::
          b64encode rest) 0 0 0 = _
      rw [a2b_step0 _ _ _ (encChar_ne_61 hv1) (b64DecChar_encChar hv1),
        a2b_step1 _ _ _ (encChar_ne_61 hv2) (b64DecChar_encChar hv2),
        a2b_step2 _ _ _ (encChar_ne_61 hv3) (b64DecChar_encChar hv3),
        a2b_step3 _ _ _ (encChar_ne_61 hv4) (b64DecChar_encChar hv4),
        ih]
      simp
      refine ⟨by omega, by omega, by omega⟩

/-- What `base64url_encode` computes, in direct form: URL-substituted
alphabet characters with no padding. -/
def b64encNoPad : Bytes → PyStr
  | [] => []
  | [b1] => [urlSub (b64EncChar (b1 / 4)), urlSub (b64EncChar (b1 % 4 * 16))]
  | [b1, b2] =>
      [urlSub (b64EncChar (b1 / 4)), urlSub (b64EncChar (b1 % 4 * 16 + b2 / 16)),
       urlSub (b64EncChar (b2 % 16 * 4))]
  | b1 :: b2 :: b3 :: rest =>
      urlSub (b64EncChar (b1 / 4)) :: urlSub (b64EncChar (b1 % 4 * 16 + b2 / 16)) ::
      urlSub (b64EncChar (b2 % 16 * 4 + b3 / 64)) :: urlSub (b64EncChar (b3 % 64)) ::
      b64encNoPad rest

theorem urlSub_61 : urlSub 61 = 61 := rfl

theorem urlUnsub_61 : urlUnsub 61 = 61 := rfl

theorem base64url_encode_eq : ∀ (b : Bytes), (∀ x ∈ b, x < 256) →
    base64url_encode b = b64encNoPad b
  | [], _ => rfl
  | [b1], h => by
      have hb1 : b1 < 256 := h b1 (by simp)
      have hv1 : b1 / 4 < 64 := by omega
      have hv2 : b1 % 4 * 16 < 64 := by omega
      have hu1 := urlSub_encChar_ne_61 hv1
      have hu2 := urlSub_encChar_ne_61 hv2
      show rstripEqChar ((b64encode [b1]).map urlSub) = _
      simp [b64encode, b64encNoPad, rstripEqChar, urlSub_61, hu1, hu2]
  | [b1, b2], h => by
      have hb1 : b1 < 256 := h b1 (by simp)
      have hb2 : b2 < 256 := h b2 (by simp)
      have hv1 : b1 / 4 < 64 := by omega
      have hv2 : b1 % 4 * 16 + b2 / 16 < 64 := by omega
      have hv3 : b2 % 16 * 4 < 64 := by omega
      have hu1 := urlSub_encChar_ne_61 hv1
      have hu2 := urlSub_encChar_ne_61 hv2
      have hu3 := urlSub_encChar_ne_61 hv3
      show rstripEqChar ((b64encode [b1, b2]).map urlSub) = _
      simp [b64encode, b64encNoPad, rstripEqChar, urlSub_61, hu1, hu2, hu3]
  | b1 :: b2 :: b3 :: rest, h => by
      have hb1 : b1 < 256 := h b1 (by simp)
      have hb2 : b2 < 256 := h b2 (by simp)
      have hb3 : b3 < 256 := h b3 (by simp)
      have hv1 : b1 / 4 < 64 := by omega
      have hv2 : b1 % 4 * 16 + b2 / 16 < 64 := by omega
      have hv3 : b2 % 16 * 4 + b3 / 64 < 64 := by omega
      have hv4 : b3 % 64 < 64 := by omega
      have ih := base64url_encode_eq rest (fun x hx => h x (by simp [hx]))
      show rstripEqChar ((b64encode (b1 :: b2 :: b3 :: rest)).map urlSub) = _
      have hsplit : (b64encode (b1 :: b2 :: b3 :: rest)).map urlSub =
          [urlSub (b64EncChar (b1 / 4)), urlSub (b64EncChar (b1 % 4 * 16 + b2 / 16)),
           urlSub (b64EncChar (b2 % 16 * 4 + b3 / 64)), urlSub (b64EncChar (b3 % 64))] ++
          (b64encode rest).map urlSub := by
        simp [b64encode]
      rw [hsplit, rstripEqChar_append]
      · show _ = b64encNoPad (b1 :: b2 :: b3 :: rest)
        simp only [b64encNoPad]
        rw [show rstripEqChar ((b64encode rest).map urlSub) = base64url_encode rest from rfl,
          ih]
        simp
      · intro c hc
        simp only [List.mem_cons, List.mem_singleton] at hc
        rcases hc with rfl | rfl | rfl | rfl | hfalse
        · exact urlSub_encChar_ne_61 hv1
        · exact urlSub_encChar_ne_61 hv2
        · exact urlSub_encChar_ne_61 hv3
        · exact urlSub_encChar_ne_61 hv4
        · simp at hfalse

theorem padTo4_append {a b : PyStr} (h : a.length % 4 = 0) :
    padTo4 (a ++ b) = a ++ padTo4 b := by
  unfold padTo4
  have hlen : (a ++ b).length % 4 = b.length % 4 := by
    simp [List.length_append]
    omega
  rw [hlen]
  by_cases hb : b.length % 4 = 0
  · simp [hb]
  · simp [hb, List.append_assoc]

/-- Re-padding the stripped URL-safe encoding and undoing the substitution
recovers the standard padded base64 encoding. -/
theorem padTo4_b64encNoPad : ∀ (b : Bytes), (∀ x ∈ b, x < 256) →
    (padTo4 (b64encNoPad b)).map urlUnsub = b64encode b
  | [], _ => by simp [b64encNoPad, padTo4, b64encode]
  | [b1], h => by
      have hb1 : b1 < 256 := h b1 (by simp)
      have hv1 : b1 / 4 < 64 := by omega
      have hv2 : b1 % 4 * 16 < 64 := by omega
      simp [b64encNoPad, padTo4, b64encode, List.replicate, urlUnsub_61,
        urlUnsub_urlSub_encChar hv1, urlUnsub_urlSub_encChar hv2]
  | [b1, b2], h => by
      have hb1 : b1 < 256 := h b1 (by simp)
      have hb2 : b2 < 256 := h b2 (by simp)
      have hv1 : b1 / 4 < 64 := by omega
      have hv2 : b1 % 4 * 16 + b2 / 16 < 64 := by omega
      have hv3 : b2 % 16 * 4 < 64 := by omega
      simp [b64encNoPad, padTo4, b64encode, List.replicate, urlUnsub_61,
        urlUnsub_urlSub_encChar hv1, urlUnsub_urlSub_encChar hv2,
        urlUnsub_urlSub_encChar hv3]
  | b1 :: b2 :: b3 :: rest, h => by
      have hb1 : b1 < 256 := h b1 (by simp)
      have hb2 : b2 < 256 := h b2 (by simp)
      have hb3 : b3 < 256 := h b3 (by simp)
      have hv1 : b1 / 4 < 64 := by omega
      have hv2 : b1 % 4 * 16 + b2 / 16 < 64 := by omega
      have hv3 : b2 % 16 * 4 + b3 / 64 < 64 := by omega
      have hv4 : b3 % 64 < 64 := by omega
      have ih := padTo4_b64encNoPad rest (fun x hx => h x (by simp [hx]))
      have hsplit : b64encNoPad (b1 :: b2 :: b3 :: rest) =
          [urlSub (b64EncChar (b1 / 4)), urlSub (b64EncChar (b1 % 4 * 16 + b2 / 16)),
           urlSub (b64EncChar (b2 % 16 * 4 + b3 / 64)), urlSub (b64EncChar (b3 % 64))] ++
          b64encNoPad rest := by
        simp [b64encNoPad]
      rw [hsplit, padTo4_append (by simp)]
      simp only [List.map_append]
      rw [ih]
      simp [b64encode, urlUnsub_urlSub_encChar hv1, urlUnsub_urlSub_encChar hv2,
        urlUnsub_urlSub_encChar hv3, urlUnsub_urlSub_encChar hv4]

theorem b64encode_ascii : ∀ (b : Bytes), (∀ x ∈ b, x < 256) →
    ∀ c ∈ b64encode b, c < 128
  | [], _ => by simp [b64encode]
  | [b1], h => by
      have hb1 : b1 < 256 := h b1 (by simp)
      have hv1 : b1 / 4 < 64 := by omega
      have hv2 : b1 % 4 * 16 < 64 := by omega
      intro c hc
      simp [b64encode] at hc
      rcases hc with rfl | rfl | rfl
      · exact (b64Char_facts ⟨_, hv1⟩).2.2.2.2.2.1
      · exact (b64Char_facts ⟨_, hv2⟩).2.2.2.2.2.1
      · omega
  | [b1, b2], h => by
      have hb1 : b1 < 256 := h b1 (by simp)
      have hb2 : b2 < 256 := h b2 (by simp)
      have hv1 : b1 / 4 < 64 := by omega
      have hv2 : b1 % 4 * 16 + b2 / 16 < 64 := by omega
      have hv3 : b2 % 16 * 4 < 64 := by omega
      intro c hc
      simp [b64encode] at hc
      rcases hc with rfl | rfl | rfl | rfl
      · exact (b64Char_facts ⟨_, hv1⟩).2.2.2.2.2.1
      · exact (b64Char_facts ⟨_, hv2⟩).2.2.2.2.2.1
      · exact (b64Char_facts ⟨_, hv3⟩).2.2.2.2.2.1
      · omega
  | b1 :: b2 :: b3 :: rest, h => by
      have hb1 : b1 < 256 := h b1 (by simp)
      have hb2 : b2 < 256 := h b2 (by simp)
      have hb3 : b3 < 256 := h b3 (by simp)
      have hv1 : b1 / 4 < 64 := by omega
      have hv2 : b1 % 4 * 16 + b2 / 16 < 64 := by omega
      have hv3 : b2 % 16 * 4 + b3 / 64 < 64 := by omega
      have hv4 : b3 % 64 < 64 := by omega
      have ih := b64encode_ascii rest (fun x hx => h x (by simp [hx]))
      intro c hc
      simp [b64encode] at hc
      rcases hc with rfl | rfl | rfl | rfl | hmem
      · exact (b64Char_facts ⟨_, hv1⟩).2.2.2.2.2.1
      · exact (b64Char_facts ⟨_, hv2⟩).2.2.2.2.2.1
      · exact (b64Char_facts ⟨_, hv3⟩).2.2.2.2.2.1
      · exact (b64Char_facts ⟨_, hv4⟩).2.2.2.2.2.1
      · exact ih c hmem

/-- base64url round-trip: decoding the encoding of any byte string gives
back the bytes. -/
theorem base64url_decode_encode (b : Bytes) (h : ∀ x ∈ b, x < 256) :
    base64url_decode (base64url_encode b) = some b := by
  rw [base64url_encode_eq b h]
  show b64decodePy ((padTo4 (b64encNoPad b)).map urlUnsub) = some b
  rw [padTo4_b64encNoPad b h]
  unfold b64decodePy
  rw [if_pos]
  · exact a2b_b64encode b h
  · rw [List.all_eq_true]
    intro c hc
    simpa using b64encode_ascii b h c hc

/-! ## JSON (Python `json`)

The repository serializes with `json.dumps(..., separators=(',', ':'))`
(and PyJWT does the same), i.e. compact separators, `ensure_ascii=True`,
insertion order preserved.  Parsing is `json.loads`, whose default C
scanner is modelled here.  Numbers are restricted to integers: the float
production of the JSON grammar is treated as a parse failure, a deliberate
reduction (floating point is out of scope for this model); none of the
code paths under verification produce or consume floats. -/

/-- A JSON value.  Object fields are kept in insertion order, as Python
dicts do. -/
inductive Json where
  | null : Json
  | bool : Bool → Json
  | int : Int → Json
  | str : PyStr → Json
  | arr : List Json → Json
  | obj : List (PyStr × Json) → Json

/-- Python dict assignment `d[k] = v`: replace the value at the first
occurrence of the key, else append. -/
def dictSet : List (PyStr × Json) → PyStr → Json → List (PyStr × Json)
  | [], k, v => [(k, v)]
  | (k0, v0) :: kvs, k, v =>
    if k0 = k then (k0, v) :: kvs else (k0, v0) :: dictSet kvs k v

/-- Python `dict(pairs)`: left-to-right insertion. -/
def dictFromPairs (pairs : List (PyStr × Json)) : List (PyStr × Json) :=
  pairs.foldl (fun d kv => dictSet d kv.1 kv.2) []

/-- Python `d.get(k)`. -/
def dictGet : List (PyStr × Json) → PyStr → Option Json
  | [], _ => none
  | (k0, v0) :: kvs, k => if k0 = k then some v0 else dictGet kvs k

/-- Python `k in d`. -/
def hasKey (d : List (PyStr × Json)) (k : PyStr) : Bool :=
  d.any (fun kv => kv.1 == k)

/-- A well-formed code point for serialization: a valid Unicode scalar
value (no lone surrogate).  `json.dumps`/`loads` round-trips exactly on
strings made of these. -/
def wfChar (c : Nat) : Bool :=
  c < 1114112 && !(55296 ≤ c && c ≤ 57343)

def wfStrB : PyStr → Bool
  | [] => true
  | c :: cs => wfChar c && wfStrB cs

mutual

/-- Well-formedness for round-tripping: strings are surrogate-free and
object keys are distinct (Python dicts guarantee the latter). -/
def jsonWF : Json → Bool
  | .null => true
  | .bool _ => true
  | .int _ => true
  | .str s => wfStrB s
  | .arr xs => jsonListWF xs
  | .obj kvs => jsonObjWF kvs

def jsonListWF : List Json → Bool
  | [] => true
  | x :: xs => jsonWF x && jsonListWF xs

def jsonObjWF : List (PyStr × Json) → Bool
  | [] => true
  | (k, v) :: kvs =>
    kvs.all (fun kv => !(kv.1 == k)) && wfStrB k && jsonWF v && jsonObjWF kvs

end

/-- Decimal digits, fuel-indexed so that the definition is structurally
recursive (the fuel `n` itself is always sufficient). -/
def natDecAux : Nat → Nat → List Nat
  | 0, n => [48 + n % 10]
  | fuel + 1, n =>
    if n < 10 then [48 + n]
    else natDecAux fuel (n / 10) ++ [48 + n % 10]

/-- Decimal digits of a natural number, as character codes. -/
def natDec (n : Nat) : List Nat := natDecAux n n

/-- Python `repr` of an int, as used by `json.dumps`. -/
def intDec (n : Int) : List Nat :=
  if n < 0 then 45 :: natDec (-n).toNat else natDec n.toNat

/-- Lower-case hex digit. -/
def hexDigit (n : Nat) : Nat :=
  if n < 10 then 48 + n else 87 + n

/-- Four-digit lower-case hex, as in the `\uXXXX` escapes emitted by
`json.dumps(..., ensure_ascii=True)`. -/
def hex4 (n : Nat) : List Nat :=
  [hexDigit (n / 4096 % 16), hexDigit (n / 256 % 16),
   hexDigit (n / 16 % 16), hexDigit (n % 16)]

/-- How `json.dumps` with `ensure_ascii=True` escapes one character:
`\"` and `\\`, the short control escapes, printable ASCII verbatim, and
`\uXXXX` for everything else (a surrogate pair above the BMP). -/
def escapeChar (c : Nat) : List Nat :=
  if c = 34 then [92, 34]
  else if c = 92 then [92, 92]
  else if c = 8 then [92, 98]
  else if c = 9 then [92, 116]
  else if c = 10 then [92, 110]
  else if c = 12 then [92, 102]
  else if c = 13 then [92, 114]
  else if 32 ≤ c ∧ c ≤ 126 then [c]
  else if c < 65536 then 92 :: 117 :: hex4 c
  else
    (92 :: 117 :: hex4 (55296 + (c - 65536) / 1024)) ++
    (92 :: 117 :: hex4 (56320 + (c - 65536) % 1024))

def escString : PyStr → PyStr
  | [] => []
  | c :: cs => escapeChar c ++ escString cs

/-- `json.dumps` of a string: quotes around the escaped body. -/
def dumpStr (s : PyStr) : PyStr :=
  34 :: escString s ++ [34]

mutual

/-- `json.dumps(v, separators=(',', ':'))` (compact, `ensure_ascii`). -/
def jsonDumps : Json → PyStr
  | .null => [110, 117, 108, 108]
  | .bool true => [116, 114, 117, 101]
  | .bool false => [102, 97, 108, 115, 101]
  | .int n => intDec n
  | .str s => dumpStr s
  | .arr xs => 91 :: dumpArrItems xs ++ [93]
  | .obj kvs => 123 :: dumpObjItems kvs ++ [125]

def dumpArrItems : List Json → PyStr
  | [] => []
  | [x] => jsonDumps x
  | x :: xs => jsonDumps x ++ 44 :: dumpArrItems xs

def dumpObjItems : List (PyStr × Json) → PyStr
  | [] => []
  | [(k, v)] => dumpStr k ++ 58 :: jsonDumps v
  | (k, v) :: kvs => dumpStr k ++ 58 :: jsonDumps v ++ 44 :: dumpObjItems kvs

end

/-- JSON whitespace skipping (`' '`, `\t`, `\n`, `\r`). -/
def skipWs : PyStr → PyStr
  | [] => []
  | c :: rest =>
    if c = 32 ∨ c = 9 ∨ c = 10 ∨ c = 13 then skipWs rest else c :: rest

/-- Hex digit value (both cases), as accepted in `\uXXXX` escapes. -/
def hexVal (c : Nat) : Option Nat :=
  if 48 ≤ c ∧ c ≤ 57 then some (c - 48)
  else if 97 ≤ c ∧ c ≤ 102 then some (c - 87)
  else if 65 ≤ c ∧ c ≤ 70 then some (c - 55)
  else none

mutual

/-- The string scanner (`scanstring` of the C `_json` module), after the
opening quote, fuel-indexed (one unit per scanner step; the input length
plus one is always sufficient).  Returns the decoded code points and the
input after the closing quote.  Strict mode: raw control characters are an
error. -/
def parseStrAux : Nat → PyStr → Option (PyStr × PyStr)
  | 0, _ => none
  | fuel + 1, s =>
    match s with
    | [] => none
    | c :: rest =>
      if c = 34 then some ([], rest)
      else if c = 92 then parseEscAux fuel rest
      else if c < 32 then none
      else (parseStrAux fuel rest).map (fun p => (c :: p.1, p.2))

/-- One backslash escape (input starts after the backslash). -/
def parseEscAux : Nat → PyStr → Option (PyStr × PyStr)
  | 0, _ => none
  | fuel + 1, s =>
    match s with
    | [] => none
    | e :: rest2 =>
      if e = 117 then parseUEscAux fuel rest2
      else if e = 34 then (parseStrAux fuel rest2).map (fun p => (34 :: p.1, p.2))
      else if e = 92 then (parseStrAux fuel rest2).map (fun p => (92 :: p.1, p.2))
      else if e = 47 then (parseStrAux fuel rest2).map (fun p => (47 :: p.1, p.2))
      else if e = 98 then (parseStrAux fuel rest2).map (fun p => (8 :: p.1, p.2))
      else if e = 102 then (parseStrAux fuel rest2).map (fun p => (12 :: p.1, p.2))
      else if e = 110 then (parseStrAux fuel rest2).map (fun p => (10 :: p.1, p.2))
      else if e = 114 then (parseStrAux fuel rest2).map (fun p => (13 :: p.1, p.2))
      else if e = 116 then (parseStrAux fuel rest2).map (fun p => (9 :: p.1, p.2))
      else none

/-- A `\uXXXX` escape (input starts after the `u`): four hex digits; a
high surrogate triggers a peek for a following low surrogate escape. -/
def parseUEscAux : Nat → PyStr → Option (PyStr × PyStr)
  | 0, _ => none
  | fuel + 1, s =>
    match s with
    | h1 :: h2 :: h3 :: h4 :: rest3 =>
      match hexVal h1, hexVal h2, hexVal h3, hexVal h4 with
      | some a, some b, some c1, some d =>
        if 55296 ≤ a * 4096 + b * 256 + c1 * 16 + d ∧
           a * 4096 + b * 256 + c1 * 16 + d ≤ 56319 then
          parseLoSurr fuel (a * 4096 + b * 256 + c1 * 16 + d) rest3
        else
          (parseStrAux fuel rest3).map
            (fun p => ((a * 4096 + b * 256 + c1 * 16 + d) :: p.1, p.2))
      | _, _, _, _ => none
    | _ => none

/-- After a high surrogate `u`: if a `\uXXXX` low surrogate follows, the
pair is joined; `\u` with invalid hex is an error; anything else keeps the
lone high surrogate and rescans from the same position. -/
def parseLoSurr : Nat → Nat → PyStr → Option (PyStr × PyStr)
  | 0, _, _ => none
  | fuel + 1, u, s =>
    match s with
    | x1 :: x2 :: g1 :: g2 :: g3 :: g4 :: rest4 =>
      if x1 = 92 ∧ x2 = 117 then
        match hexVal g1, hexVal g2, hexVal g3, hexVal g4 with
        | some a2, some b2, some c2, some d2 =>
          if 56320 ≤ a2 * 4096 + b2 * 256 + c2 * 16 + d2 ∧
             a2 * 4096 + b2 * 256 + c2 * 16 + d2 ≤ 57343 then
            (parseStrAux fuel rest4).map
              (fun p => ((65536 + (u - 55296) * 1024 +
                (a2 * 4096 + b2 * 256 + c2 * 16 + d2 - 56320)) :: p.1, p.2))
          else
            (parseStrAux fuel (x1 :: x2 :: g1 :: g2 :: g3 :: g4 :: rest4)).map
              (fun p => (u :: p.1, p.2))
        | _, _, _, _ => none
      else
        (parseStrAux fuel (x1 :: x2 :: g1 :: g2 :: g3 :: g4 :: rest4)).map
          (fun p => (u :: p.1, p.2))
    | s2 => (parseStrAux fuel s2).map (fun p => (u :: p.1, p.2))

end

/-- The string scanner with its sufficient fuel. -/
def parseStrBody (s : PyStr) : Option (PyStr × PyStr) :=
  parseStrAux (s.length + 1) s

/-- Maximal run of decimal digits, accumulating a value. -/
def takeDigits : PyStr → Nat → Nat × PyStr
  | [], acc => (acc, [])
  | c :: rest, acc =>
    if 48 ≤ c ∧ c ≤ 57 then takeDigits rest (acc * 10 + (c - 48))
    else (acc, c :: rest)

/-- The integer part of the JSON number grammar: `0` or a nonzero digit
followed by digits (`01` stops after the `0`, as Python's regex does). -/
def parseUInt : PyStr → Option (Nat × PyStr)
  | [] => none
  | c :: rest =>
    if c = 48 then some (0, rest)
    else if 49 ≤ c ∧ c ≤ 57 then some (takeDigits rest (c - 48))
    else none

/-- After the integer part, a fraction or exponent would make the number a
float; the model treats that as a parse failure (floats out of scope). -/
def floatGuard (s : PyStr) : Bool :=
  match s with
  | 46 :: d :: _ => !(48 ≤ d && d ≤ 57)
  | 101 :: _ => false
  | 69 :: _ => false
  | _ => true

/-- The tail of the `null` literal. -/
def parseNullTail (rest : PyStr) : Option (Json × PyStr) :=
  match rest with
  | 117 :: 108 :: 108 :: r => some (.null, r)
  | _ => none

/-- The tail of the `true` literal. -/
def parseTrueTail (rest : PyStr) : Option (Json × PyStr) :=
  match rest with
  | 114 :: 117 :: 101 :: r => some (.bool true, r)
  | _ => none

/-- The tail of the `false` literal. -/
def parseFalseTail (rest : PyStr) : Option (Json × PyStr) :=
  match rest with
  | 97 :: 108 :: 115 :: 101 :: r => some (.bool false, r)
  | _ => none

mutual

/-- The value scanner (`scan_once`), fuel-indexed.  Every function of this
group consumes one unit of fuel per call and each such call owns at least
one distinct input character, so fuel `input length + 1` always suffices. -/
def parseVal : Nat → PyStr → Option (Json × PyStr)
  | 0, _ => none
  | fuel + 1, s =>
    match s with
    | [] => none
    | c :: rest =>
      if c = 34 then (parseStrBody rest).map (fun p => (Json.str p.1, p.2))
      else if c = 123 then
        (parseMembers fuel true (skipWs rest)).map
          (fun p => (Json.obj (dictFromPairs p.1), p.2))
      else if c = 91 then
        (parseElems fuel true (skipWs rest)).map (fun p => (Json.arr p.1, p.2))
      else if c = 110 then parseNullTail rest
      else if c = 116 then parseTrueTail rest
      else if c = 102 then parseFalseTail rest
      else if c = 45 then
        (parseUInt rest).bind (fun p =>
          if floatGuard p.2 then some (.int (-(p.1 : Int)), p.2) else none)
      else if 48 ≤ c ∧ c ≤ 57 then
        (parseUInt (c :: rest)).bind (fun p =>
          if floatGuard p.2 then some (.int (p.1 : Int), p.2) else none)
      else none

/-- Object members after the first non-whitespace character past `{`.
`first` is true only for the first member position, where a closing brace
(empty object) is allowed. -/
def parseMembers : Nat → Bool → PyStr → Option (List (PyStr × Json) × PyStr)
  | 0, _, _ => none
  | fuel + 1, first, s =>
    match s with
    | [] => none
    | c :: rest =>
      if c = 125 then (if first then some ([], rest) else none)
      else if c = 34 then
        (parseStrBody rest).bind (fun pk => parseColon fuel pk.1 (skipWs pk.2))
      else none

/-- The colon and value of one object member. -/
def parseColon : Nat → PyStr → PyStr → Option (List (PyStr × Json) × PyStr)
  | 0, _, _ => none
  | fuel + 1, k, s =>
    match s with
    | [] => none
    | c :: rest2 =>
      if c = 58 then
        (parseVal fuel (skipWs rest2)).bind (fun pv =>
          parseMemberSep fuel k pv.1 (skipWs pv.2))
      else none

/-- After one object member: a comma continues, a closing brace ends. -/
def parseMemberSep : Nat → PyStr → Json → PyStr → Option (List (PyStr × Json) × PyStr)
  | 0, _, _, _ => none
  | fuel + 1, k, v, s =>
    match s with
    | [] => none
    | c :: rest3 =>
      if c = 44 then
        (parseMembers fuel false (skipWs rest3)).map (fun pm => ((k, v) :: pm.1, pm.2))
      else if c = 125 then some ([(k, v)], rest3)
      else none

/-- Array elements after the first non-whitespace character past `[`.
`first` is true only for the first element position, where a closing
bracket (empty array) is allowed. -/
def parseElems : Nat → Bool → PyStr → Option (List Json × PyStr)
  | 0, _, _ => none
  | fuel + 1, first, s =>
    match s with
    | [] => none
    | c :: rest =>
      if c = 93 then (if first then some ([], rest) else none)
      else (parseVal fuel (c :: rest)).bind (fun pv =>
        parseElemSep fuel pv.1 (skipWs pv.2))

/-- After one array element: a comma continues, a closing bracket ends. -/
def parseElemSep : Nat → Json → PyStr → Option (List Json × PyStr)
  | 0, _, _ => none
  | fuel + 1, v, s =>
    match s with
    | [] => none
    | c :: rest =>
      if c = 44 then
        (parseElems fuel false (skipWs rest)).map (fun pe => (v :: pe.1, pe.2))
      else if c = 93 then some ([v], rest)
      else none

end

/-- `json.loads`: skip leading whitespace, scan one value, allow trailing
whitespace only.  The fuel bound is generous: every scanner call owns at
least one input character, and each character is owned by at most two
calls, so `2 * length + 2` always suffices. -/
def jsonLoads (s : PyStr) : Option Json :=
  match parseVal (2 * s.length + 2) (skipWs s) with
  | some (v, rest) => if skipWs rest = [] then some v else none
  | none => none

/-! ### JSON round-trip: auxiliary lemmas -/

theorem hexVal_hexDigit : ∀ x : Fin 16,
    hexVal (hexDigit x.val) = some x.val ∧ hexDigit x.val < 128 := by decide

theorem skipWs_cons_ne {c : Nat} (s : PyStr)
    (h : ¬(c = 32 ∨ c = 9 ∨ c = 10 ∨ c = 13)) : skipWs (c :: s) = c :: s := by
  simp only [skipWs]
  rw [if_neg h]

theorem natDecAux_congr : ∀ (fuel fuel' n : Nat), n ≤ fuel → n ≤ fuel' →
    natDecAux fuel n = natDecAux fuel' n := by
  intro fuel
  induction fuel with
  | zero =>
    intro fuel' n h h'
    have : n = 0 := by omega
    subst this
    cases fuel' with
    | zero => rfl
    | succ f => simp [natDecAux]
  | succ f ih =>
    intro fuel' n h h'
    cases fuel' with
    | zero =>
      have : n = 0 := by omega
      subst this
      simp [natDecAux]
    | succ f' =>
      simp only [natDecAux]
      by_cases hn : n < 10
      · simp [hn]
      · simp only [hn, if_false]
        rw [ih f' (n / 10) (by omega) (by omega)]

/-- The recurrence satisfied by `natDec`. -/
theorem natDec_eq (n : Nat) :
    natDec n = if n < 10 then [48 + n] else natDec (n / 10) ++ [48 + n % 10] := by
  unfold natDec
  cases hn : n with
  | zero => simp [natDecAux]
  | succ m =>
    simp only [natDecAux]
    by_cases h10 : m + 1 < 10
    · simp [h10]
    · simp only [h10, if_false]
      rw [natDecAux_congr m ((m + 1) / 10) ((m + 1) / 10) (by omega) (by omega)]

theorem natDec_digits (n : Nat) : ∀ c ∈ natDec n, 48 ≤ c ∧ c ≤ 57 := by
  induction n using Nat.strong_induction_on with
  | _ n ih =>
    rw [natDec_eq]
    split
    · intro c hc
      simp at hc
      omega
    · intro c hc
      rw [List.mem_append] at hc
      rcases hc with hc | hc
      · exact ih (n / 10) (Nat.div_lt_self (by omega) (by omega)) c hc
      · simp at hc
        omega

theorem natDec_head (n : Nat) (h : 1 ≤ n) :
    ∃ d t, natDec n = d :: t ∧ 49 ≤ d ∧ d ≤ 57 ∧ ∀ c ∈ t, 48 ≤ c ∧ c ≤ 57 := by
  induction n using Nat.strong_induction_on with
  | _ n ih =>
    rw [natDec_eq]
    split
    · rename_i hlt
      exact ⟨48 + n, [], rfl, by omega, by omega, by simp⟩
    · rename_i hge
      obtain ⟨d, t, hdt, hd1, hd2, ht⟩ :=
        ih (n / 10) (Nat.div_lt_self (by omega) (by omega)) (by omega)
      refine ⟨d, t ++ [48 + n % 10], by rw [hdt]; rfl, hd1, hd2, ?_⟩
      intro c hc
      rw [List.mem_append] at hc
      rcases hc with hc | hc
      · exact ht c hc
      · simp at hc
        omega

/-- The value accumulated by `takeDigits` over a digit string. -/
def decVal (acc : Nat) : List Nat → Nat
  | [] => acc
  | c :: cs => decVal (acc * 10 + (c - 48)) cs

theorem decVal_nil (acc : Nat) : decVal acc [] = acc := rfl

theorem decVal_cons (acc c : Nat) (cs : List Nat) :
    decVal acc (c :: cs) = decVal (acc * 10 + (c - 48)) cs := rfl

/-- Heads that may legally follow a serialized value: end of input, comma,
closing brace, or closing bracket. -/
def sepHead : PyStr → Bool
  | [] => true
  | c :: _ => c = 44 || c = 125 || c = 93

theorem takeDigits_append (ds : List Nat) :
    ∀ (acc : Nat) (rest : PyStr), (∀ c ∈ ds, 48 ≤ c ∧ c ≤ 57) →
    (∀ c t, rest = c :: t → ¬(48 ≤ c ∧ c ≤ 57)) →
    takeDigits (ds ++ rest) acc = (decVal acc ds, rest) := by
  induction ds with
  | nil =>
    intro acc rest _ hrest
    cases rest with
    | nil => rfl
    | cons c t =>
      simp only [List.nil_append, takeDigits, decVal_nil]
      rw [if_neg (hrest c t rfl)]
  | cons c cs ih =>
    intro acc rest hds hrest
    have hc := hds c (by simp)
    simp only [List.cons_append, takeDigits, decVal_cons]
    rw [if_pos hc]
    exact ih _ rest (fun x hx => hds x (by simp [hx])) hrest

theorem decVal_append_one (ds : List Nat) :
    ∀ (a d : Nat), decVal a (ds ++ [d]) = decVal a ds * 10 + (d - 48) := by
  induction ds with
  | nil => intro a d; rfl
  | cons x xs ihx =>
    intro a d
    simp only [List.cons_append, decVal_cons]
    exact ihx _ d

theorem decVal_natDec (n : Nat) :
    ∀ acc, decVal acc (natDec n) = acc * 10 ^ (natDec n).length + n := by
  induction n using Nat.strong_induction_on with
  | _ n ih =>
    intro acc
    rw [natDec_eq]
    split
    · rename_i hlt
      simp only [decVal_cons, decVal_nil, List.length_cons, List.length_nil, pow_one, zero_add]
      omega
    · rename_i hge
      rw [decVal_append_one, ih (n / 10) (Nat.div_lt_self (by omega) (by omega)) acc]
      simp only [List.length_append, List.length_cons, List.length_nil]
      rw [pow_succ]
      have : 48 + n % 10 - 48 = n % 10 := by omega
      rw [this]
      have hdiv : n / 10 * 10 + n % 10 = n := by omega
      ring_nf
      omega

theorem parseUInt_natDec (n : Nat) (rest : PyStr)
    (hrest : ∀ c t, rest = c :: t → ¬(48 ≤ c ∧ c ≤ 57)) :
    parseUInt (natDec n ++ rest) = some (n, rest) := by
  by_cases h0 : n = 0
  · subst h0
    rw [show natDec 0 = [48] from rfl]
    simp [parseUInt]
  · obtain ⟨d, t, hdt, hd1, hd2, ht⟩ := natDec_head n (by omega)
    rw [hdt]
    simp only [List.cons_append, parseUInt]
    rw [if_neg (by omega), if_pos (by omega)]
    rw [takeDigits_append t (d - 48) rest ht hrest]
    have : decVal (d - 48) t = n := by
      have h1 : decVal 0 (natDec n) = n := by
        rw [decVal_natDec n 0]
        simp
      rw [hdt] at h1
      simp only [decVal_cons] at h1
      simpa using h1
    rw [this]

theorem sepHead_not_digit {rest : PyStr} (h : sepHead rest = true) :
    ∀ c t, rest = c :: t → ¬(48 ≤ c ∧ c ≤ 57) := by
  intro c t hct
  subst hct
  simp [sepHead] at h
  omega

theorem hexVal_hexDigit_val {x : Nat} (h : x < 16) :
    hexVal (hexDigit x) = some x :=
  (hexVal_hexDigit ⟨x, h⟩).1

theorem parseStrAux_quote (fuel : Nat) (r : PyStr) :
    parseStrAux (fuel + 1) (34 :: r) = some ([], r) := rfl

theorem parseStrAux_esc_quote (fuel : Nat) (r : PyStr) :
    parseStrAux (fuel + 2) (92 :: 34 :: r) =
      (parseStrAux fuel r).map (fun p => (34 :: p.1, p.2)) := rfl

theorem parseStrAux_esc_back (fuel : Nat) (r : PyStr) :
    parseStrAux (fuel + 2) (92 :: 92 :: r) =
      (parseStrAux fuel r).map (fun p => (92 :: p.1, p.2)) := rfl

theorem parseStrAux_esc_b (fuel : Nat) (r : PyStr) :
    parseStrAux (fuel + 2) (92 :: 98 :: r) =
      (parseStrAux fuel r).map (fun p => (8 :: p.1, p.2)) := rfl

theorem parseStrAux_esc_t (fuel : Nat) (r : PyStr) :
    parseStrAux (fuel + 2) (92 :: 116 :: r) =
      (parseStrAux fuel r).map (fun p => (9 :: p.1, p.2)) := rfl

theorem parseStrAux_esc_n (fuel : Nat) (r : PyStr) :
    parseStrAux (fuel + 2) (92 :: 110 :: r) =
      (parseStrAux fuel r).map (fun p => (10 :: p.1, p.2)) := rfl

theorem parseStrAux_esc_f (fuel : Nat) (r : PyStr) :
    parseStrAux (fuel + 2) (92 :: 102 :: r) =
      (parseStrAux fuel r).map (fun p => (12 :: p.1, p.2)) := rfl

theorem parseStrAux_esc_r (fuel : Nat) (r : PyStr) :
    parseStrAux (fuel + 2) (92 :: 114 :: r) =
      (parseStrAux fuel r).map (fun p => (13 :: p.1, p.2)) := rfl

theorem parseStrAux_lit {c : Nat} (fuel : Nat) (r : PyStr) (h34 : ¬c = 34)
    (h92 : ¬c = 92) (h32 : ¬c < 32) :
    parseStrAux (fuel + 1) (c :: r) =
      (parseStrAux fuel r).map (fun p => (c :: p.1, p.2)) := by
  show (if c = 34 then some ([], r)
    else if c = 92 then parseEscAux fuel r
    else if c < 32 then none
    else (parseStrAux fuel r).map (fun p => (c :: p.1, p.2))) = _
  rw [if_neg h34, if_neg h92, if_neg h32]

theorem parseStrAux_u {d1 d2 d3 d4 v1 v2 v3 v4 : Nat} (fuel : Nat) (r : PyStr)
    (h1 : hexVal d1 = some v1) (h2 : hexVal d2 = some v2)
    (h3 : hexVal d3 = some v3) (h4 : hexVal d4 = some v4)
    (hns : ¬(55296 ≤ v1 * 4096 + v2 * 256 + v3 * 16 + v4 ∧
             v1 * 4096 + v2 * 256 + v3 * 16 + v4 ≤ 56319)) :
    parseStrAux (fuel + 3) (92 :: 117 :: d1 :: d2 :: d3 :: d4 :: r) =
      (parseStrAux fuel r).map
        (fun p => ((v1 * 4096 + v2 * 256 + v3 * 16 + v4) :: p.1, p.2)) := by
  show parseUEscAux (fuel + 1) (d1 :: d2 :: d3 :: d4 :: r) = _
  simp only [parseUEscAux, h1, h2, h3, h4]
  rw [if_neg hns]

theorem parseStrAux_u_pair {d1 d2 d3 d4 e1 e2 e3 e4 v1 v2 v3 v4 w1 w2 w3 w4 : Nat}
    (fuel : Nat) (r : PyStr)
    (h1 : hexVal d1 = some v1) (h2 : hexVal d2 = some v2)
    (h3 : hexVal d3 = some v3) (h4 : hexVal d4 = some v4)
    (g1 : hexVal e1 = some w1) (g2 : hexVal e2 = some w2)
    (g3 : hexVal e3 = some w3) (g4 : hexVal e4 = some w4)
    (hhi : 55296 ≤ v1 * 4096 + v2 * 256 + v3 * 16 + v4 ∧
           v1 * 4096 + v2 * 256 + v3 * 16 + v4 ≤ 56319)
    (hlo : 56320 ≤ w1 * 4096 + w2 * 256 + w3 * 16 + w4 ∧
           w1 * 4096 + w2 * 256 + w3 * 16 + w4 ≤ 57343) :
    parseStrAux (fuel + 4) (92 :: 117 :: d1 :: d2 :: d3 :: d4 ::
                            92 :: 117 :: e1 :: e2 :: e3 :: e4 :: r) =
      (parseStrAux fuel r).map
        (fun p => ((65536 + (v1 * 4096 + v2 * 256 + v3 * 16 + v4 - 55296) * 1024 +
                    (w1 * 4096 + w2 * 256 + w3 * 16 + w4 - 56320)) :: p.1, p.2)) := by
  show parseUEscAux (fuel + 2)
    (d1 :: d2 :: d3 :: d4 :: 92 :: 117 :: e1 :: e2 :: e3 :: e4 :: r) = _
  simp only [parseUEscAux, h1, h2, h3, h4]
  rw [if_pos hhi]
  show parseLoSurr (fuel + 1) (v1 * 4096 + v2 * 256 + v3 * 16 + v4)
    (92 :: 117 :: e1 :: e2 :: e3 :: e4 :: r) = _
  simp only [parseLoSurr, g1, g2, g3, g4]
  rw [if_pos ⟨trivial, trivial⟩, if_pos hlo]

theorem wfStrB_cons {c : Nat} {cs : PyStr} (h : wfStrB (c :: cs) = true) :
    c < 1114112 ∧ ¬(55296 ≤ c ∧ c ≤ 57343) ∧ wfStrB cs = true := by
  have h2 : wfChar c = true ∧ wfStrB cs = true := by
    simpa [wfStrB, Bool.and_eq_true] using h
  have h3 := h2.1
  simp only [wfChar, Bool.and_eq_true, Bool.not_eq_true', Bool.and_eq_false_iff,
    decide_eq_true_eq, decide_eq_false_iff_not, not_le] at h3
  refine ⟨h3.1, ?_, h2.2⟩
  rcases h3.2 with h | h <;> omega

theorem escString_cons (c : Nat) (cs : PyStr) :
    escString (c :: cs) = escapeChar c ++ escString cs := rfl

/-- Scanning the escaped form of a well-formed string, followed by the
closing quote, recovers the string.  Fuel: one more than the escaped
length always suffices. -/
theorem parseStrAux_escString (s : PyStr) : ∀ (fuel : Nat) (r : PyStr),
    wfStrB s = true → (escString s).length + 1 ≤ fuel →
    parseStrAux fuel (escString s ++ 34 :: r) = some (s, r) := by
  induction s with
  | nil =>
    intro fuel r _ hfuel
    obtain ⟨f, rfl⟩ : ∃ f, fuel = f + 1 := ⟨fuel - 1, by omega⟩
    exact parseStrAux_quote f r
  | cons c cs ih =>
    intro fuel r hwf hfuel
    obtain ⟨hc1, hc2, hcs⟩ := wfStrB_cons hwf
    rw [escString_cons] at hfuel ⊢
    rw [List.length_append] at hfuel
    rw [List.append_assoc]
    by_cases e34 : c = 34
    · subst e34
      rw [show escapeChar 34 = [92, 34] from rfl] at hfuel ⊢
      obtain ⟨f, rfl⟩ : ∃ f, fuel = f + 2 := ⟨fuel - 2, by simp at hfuel; omega⟩
      show parseStrAux (f + 2) (92 :: 34 :: (escString cs ++ 34 :: r)) = _
      rw [parseStrAux_esc_quote, ih f r hcs (by simp at hfuel; omega)]
      rfl
    · by_cases e92 : c = 92
      · subst e92
        rw [show escapeChar 92 = [92, 92] from rfl] at hfuel ⊢
        obtain ⟨f, rfl⟩ : ∃ f, fuel = f + 2 := ⟨fuel - 2, by simp at hfuel; omega⟩
        show parseStrAux (f + 2) (92 :: 92 :: (escString cs ++ 34 :: r)) = _
        rw [parseStrAux_esc_back, ih f r hcs (by simp at hfuel; omega)]
        rfl
      · by_cases e8 : c = 8
        · subst e8
          rw [show escapeChar 8 = [92, 98] from rfl] at hfuel ⊢
          obtain ⟨f, rfl⟩ : ∃ f, fuel = f + 2 := ⟨fuel - 2, by simp at hfuel; omega⟩
          show parseStrAux (f + 2) (92 :: 98 :: (escString cs ++ 34 :: r)) = _
          rw [parseStrAux_esc_b, ih f r hcs (by simp at hfuel; omega)]
          rfl
        · by_cases e9 : c = 9
          · subst e9
            rw [show escapeChar 9 = [92, 116] from rfl] at hfuel ⊢
            obtain ⟨f, rfl⟩ : ∃ f, fuel = f + 2 := ⟨fuel - 2, by simp at hfuel; omega⟩
            show parseStrAux (f + 2) (92 :: 116 :: (escString cs ++ 34 :: r)) = _
            rw [parseStrAux_esc_t, ih f r hcs (by simp at hfuel; omega)]
            rfl
          · by_cases e10 : c = 10
            · subst e10
              rw [show escapeChar 10 = [92, 110] from rfl] at hfuel ⊢
              obtain ⟨f, rfl⟩ : ∃ f, fuel = f + 2 := ⟨fuel - 2, by simp at hfuel; omega⟩
              show parseStrAux (f + 2) (92 :: 110 :: (escString cs ++ 34 :: r)) = _
              rw [parseStrAux_esc_n, ih f r hcs (by simp at hfuel; omega)]
              rfl
            · by_cases e12 : c = 12
              · subst e12
                rw [show escapeChar 12 = [92, 102] from rfl] at hfuel ⊢
                obtain ⟨f, rfl⟩ : ∃ f, fuel = f + 2 := ⟨fuel - 2, by simp at hfuel; omega⟩
                show parseStrAux (f + 2) (92 :: 102 :: (escString cs ++ 34 :: r)) = _
                rw [parseStrAux_esc_f, ih f r hcs (by simp at hfuel; omega)]
                rfl
              · by_cases e13 : c = 13
                · subst e13
                  rw [show escapeChar 13 = [92, 114] from rfl] at hfuel ⊢
                  obtain ⟨f, rfl⟩ : ∃ f, fuel = f + 2 := ⟨fuel - 2, by simp at hfuel; omega⟩
                  show parseStrAux (f + 2) (92 :: 114 :: (escString cs ++ 34 :: r)) = _
                  rw [parseStrAux_esc_r, ih f r hcs (by simp at hfuel; omega)]
                  rfl
                · by_cases hpr : 32 ≤ c ∧ c ≤ 126
                  · have hesc : escapeChar c = [c] := by
                      unfold escapeChar
                      rw [if_neg e34, if_neg e92, if_neg e8, if_neg e9, if_neg e10,
                        if_neg e12, if_neg e13, if_pos hpr]
                    rw [hesc] at hfuel ⊢
                    obtain ⟨f, rfl⟩ : ∃ f, fuel = f + 1 :=
                      ⟨fuel - 1, by simp at hfuel; omega⟩
                    show parseStrAux (f + 1) (c :: (escString cs ++ 34 :: r)) = _
                    rw [parseStrAux_lit f _ e34 e92 (by omega),
                      ih f r hcs (by simp at hfuel; omega)]
                    rfl
                  · by_cases hbmp : c < 65536
                    · have hesc : escapeChar c = 92 :: 117 :: hex4 c := by
                        unfold escapeChar
                        rw [if_neg e34, if_neg e92, if_neg e8, if_neg e9, if_neg e10,
                          if_neg e12, if_neg e13, if_neg hpr, if_pos hbmp]
                      rw [hesc] at hfuel ⊢
                      have h6 : (92 :: 117 :: hex4 c).length = 6 := by simp [hex4]
                      obtain ⟨f, rfl⟩ : ∃ f, fuel = f + 3 :=
                        ⟨fuel - 3, by omega⟩
                      show parseStrAux (f + 3)
                        (92 :: 117 :: hexDigit (c / 4096 % 16) :: hexDigit (c / 256 % 16) ::
                         hexDigit (c / 16 % 16) :: hexDigit (c % 16) ::
                         (escString cs ++ 34 :: r)) = _
                      rw [parseStrAux_u f _
                        (hexVal_hexDigit_val (by omega)) (hexVal_hexDigit_val (by omega))
                        (hexVal_hexDigit_val (by omega)) (hexVal_hexDigit_val (by omega))
                        (by omega)]
                      rw [ih f r hcs (by omega)]
                      simp only [Option.map_some']
                      have : c / 4096 % 16 * 4096 + c / 256 % 16 * 256 +
                          c / 16 % 16 * 16 + c % 16 = c := by omega
                      rw [this]
                    · have hesc : escapeChar c =
                          (92 :: 117 :: hex4 (55296 + (c - 65536) / 1024)) ++
                          (92 :: 117 :: hex4 (56320 + (c - 65536) % 1024)) := by
                        unfold escapeChar
                        rw [if_neg e34, if_neg e92, if_neg e8, if_neg e9, if_neg e10,
                          if_neg e12, if_neg e13, if_neg hpr, if_neg hbmp]
                      rw [hesc] at hfuel ⊢
                      have h12 : ((92 :: 117 :: hex4 (55296 + (c - 65536) / 1024)) ++
                          (92 :: 117 :: hex4 (56320 + (c - 65536) % 1024))).length = 12 := by
                        simp [hex4]
                      obtain ⟨f, rfl⟩ : ∃ f, fuel = f + 4 :=
                        ⟨fuel - 4, by omega⟩
                      have hi1 : (c - 65536) / 1024 ≤ 1023 := by omega
                      have lo1 : (c - 65536) % 1024 ≤ 1023 := by omega
                      show parseStrAux (f + 4)
                        (92 :: 117 ::
                         hexDigit ((55296 + (c - 65536) / 1024) / 4096 % 16) ::
                         hexDigit ((55296 + (c - 65536) / 1024) / 256 % 16) ::
                         hexDigit ((55296 + (c - 65536) / 1024) / 16 % 16) ::
                         hexDigit ((55296 + (c - 65536) / 1024) % 16) ::
                         92 :: 117 ::
                         hexDigit ((56320 + (c - 65536) % 1024) / 4096 % 16) ::
                         hexDigit ((56320 + (c - 65536) % 1024) / 256 % 16) ::
                         hexDigit ((56320 + (c - 65536) % 1024) / 16 % 16) ::
                         hexDigit ((56320 + (c - 65536) % 1024) % 16) ::
                         (escString cs ++ 34 :: r)) = _
                      rw [parseStrAux_u_pair f _
                        (hexVal_hexDigit_val (by omega)) (hexVal_hexDigit_val (by omega))
                        (hexVal_hexDigit_val (by omega)) (hexVal_hexDigit_val (by omega))
                        (hexVal_hexDigit_val (by omega)) (hexVal_hexDigit_val (by omega))
                        (hexVal_hexDigit_val (by omega)) (hexVal_hexDigit_val (by omega))
                        (by constructor <;> omega) (by constructor <;> omega)]
                      rw [ih f r hcs (by omega)]
                      simp only [Option.map_some']
                      have : 65536 +
                          ((55296 + (c - 65536) / 1024) / 4096 % 16 * 4096 +
                           (55296 + (c - 65536) / 1024) / 256 % 16 * 256 +
                           (55296 + (c - 65536) / 1024) / 16 % 16 * 16 +
                           (55296 + (c - 65536) / 1024) % 16 - 55296) * 1024 +
                          ((56320 + (c - 65536) % 1024) / 4096 % 16 * 4096 +
                           (56320 + (c - 65536) % 1024) / 256 % 16 * 256 +
                           (56320 + (c - 65536) % 1024) / 16 % 16 * 16 +
                           (56320 + (c - 65536) % 1024) % 16 - 56320) = c := by omega
                      rw [this]

theorem floatGuard_sep {rest : PyStr} (h : sepHead rest = true) :
    floatGuard rest = true := by
  cases rest with
  | nil => rfl
  | cons c t =>
    simp [sepHead] at h
    rcases h with (rfl | rfl) | rfl
    · rfl
    · rfl
    · rfl

/-- Scanning the quoted, escaped form of a well-formed string recovers the
string (with the scanner's own fuel). -/
theorem parseStrBody_escString (s : PyStr) (r : PyStr) (h : wfStrB s = true) :
    parseStrBody (escString s ++ 34 :: r) = some (s, r) := by
  unfold parseStrBody
  apply parseStrAux_escString s _ r h
  simp [List.length_append]

/-! ### Fuel bounds for the value scanner -/

mutual

/-- Sufficient fuel for scanning the serialization of a value. -/
def fsize : Json → Nat
  | .null => 1
  | .bool _ => 1
  | .int _ => 1
  | .str _ => 1
  | .arr xs => 1 + fsizeElems xs
  | .obj kvs => 1 + fsizeMembers kvs

def fsizeElems : List Json → Nat
  | [] => 1
  | [x] => 2 + fsize x
  | x :: xs => 2 + fsize x + fsizeElems xs

def fsizeMembers : List (PyStr × Json) → Nat
  | [] => 1
  | [(_, v)] => 3 + fsize v
  | (_, v) :: kvs => 3 + fsize v + fsizeMembers kvs

end

/-! ### Stepping lemmas for the value scanner -/

theorem parseVal_str (fuel : Nat) (t : PyStr) :
    parseVal (fuel + 1) (34 :: t) =
      (parseStrBody t).map (fun p => (Json.str p.1, p.2)) := rfl

theorem parseVal_obj (fuel : Nat) (t : PyStr) :
    parseVal (fuel + 1) (123 :: t) =
      (parseMembers fuel true (skipWs t)).map
        (fun p => (Json.obj (dictFromPairs p.1), p.2)) := rfl

theorem parseVal_arr (fuel : Nat) (t : PyStr) :
    parseVal (fuel + 1) (91 :: t) =
      (parseElems fuel true (skipWs t)).map (fun p => (Json.arr p.1, p.2)) := rfl

theorem parseVal_null (fuel : Nat) (r : PyStr) :
    parseVal (fuel + 1) (110 :: 117 :: 108 :: 108 :: r) = some (.null, r) := rfl

theorem parseVal_true (fuel : Nat) (r : PyStr) :
    parseVal (fuel + 1) (116 :: 114 :: 117 :: 101 :: r) = some (.bool true, r) := rfl

theorem parseVal_false (fuel : Nat) (r : PyStr) :
    parseVal (fuel + 1) (102 :: 97 :: 108 :: 115 :: 101 :: r) =
      some (.bool false, r) := rfl

theorem parseVal_neg (fuel : Nat) (rest : PyStr) :
    parseVal (fuel + 1) (45 :: rest) =
      (parseUInt rest).bind (fun p =>
        if floatGuard p.2 then some (.int (-(p.1 : Int)), p.2) else none) := rfl

theorem parseVal_digit {c : Nat} (fuel : Nat) (rest : PyStr)
    (h : 48 ≤ c ∧ c ≤ 57) :
    parseVal (fuel + 1) (c :: rest) =
      (parseUInt (c :: rest)).bind (fun p =>
        if floatGuard p.2 then some (.int (p.1 : Int), p.2) else none) := by
  show (if c = 34 then (parseStrBody rest).map (fun p => (Json.str p.1, p.2))
    else if c = 123 then
      (parseMembers fuel true (skipWs rest)).map
        (fun p => (Json.obj (dictFromPairs p.1), p.2))
    else if c = 91 then
      (parseElems fuel true (skipWs rest)).map (fun p => (Json.arr p.1, p.2))
    else if c = 110 then parseNullTail rest
    else if c = 116 then parseTrueTail rest
    else if c = 102 then parseFalseTail rest
    else if c = 45 then
      (parseUInt rest).bind (fun p =>
        if floatGuard p.2 then some (.int (-(p.1 : Int)), p.2) else none)
    else if 48 ≤ c ∧ c ≤ 57 then
      (parseUInt (c :: rest)).bind (fun p =>
        if floatGuard p.2 then some (.int (p.1 : Int), p.2) else none)
    else none) = _
  rw [if_neg (by omega), if_neg (by omega), if_neg (by omega), if_neg (by omega),
    if_neg (by omega), if_neg (by omega), if_neg (by omega), if_pos h]

/-- There is always a leading digit. -/
theorem natDec_head_any (m : Nat) :
    ∃ d t, natDec m = d :: t ∧ 48 ≤ d ∧ d ≤ 57 := by
  by_cases h0 : m = 0
  · subst h0
    exact ⟨48, [], rfl, by omega, by omega⟩
  · obtain ⟨d, t, hdt, h1, h2, _⟩ := natDec_head m (by omega)
    exact ⟨d, t, hdt, by omega, h2⟩

/-- Scanning a serialized integer, with a separator following. -/
theorem parseVal_intDec (n : Int) (fuel : Nat) (rest : PyStr)
    (hsep : sepHead rest = true) :
    parseVal (fuel + 1) (intDec n ++ rest) = some (.int n, rest) := by
  by_cases hneg : n < 0
  · rw [show intDec n = 45 :: natDec (-n).toNat from by simp [intDec, hneg]]
    rw [List.cons_append, parseVal_neg,
      parseUInt_natDec _ rest (sepHead_not_digit hsep)]
    simp only [Option.some_bind]
    rw [if_pos (floatGuard_sep hsep)]
    have : (((-n).toNat : Int)) = -n := Int.toNat_of_nonneg (by omega)
    simp only [this]
    simp
  · rw [show intDec n = natDec n.toNat from by simp [intDec, hneg]]
    obtain ⟨d, t, hdt, hd1, hd2⟩ := natDec_head_any n.toNat
    rw [hdt, List.cons_append, parseVal_digit fuel _ ⟨hd1, hd2⟩,
      show (d :: (t ++ rest)) = natDec n.toNat ++ rest from by rw [hdt]; rfl,
      parseUInt_natDec _ rest (sepHead_not_digit hsep)]
    simp only [Option.some_bind]
    rw [if_pos (floatGuard_sep hsep)]
    have : ((n.toNat : Int)) = n := Int.toNat_of_nonneg (by omega)
    simp only [this]

/-! ### Serialization shapes and whitespace facts -/

theorem jsonDumps_str (s : PyStr) :
    jsonDumps (Json.str s) = 34 :: escString s ++ [34] := rfl

theorem jsonDumps_arr (xs : List Json) :
    jsonDumps (Json.arr xs) = 91 :: dumpArrItems xs ++ [93] := rfl

theorem jsonDumps_obj (kvs : List (PyStr × Json)) :
    jsonDumps (Json.obj kvs) = 123 :: dumpObjItems kvs ++ [125] := rfl

theorem dumpArrItems_single (x : Json) : dumpArrItems [x] = jsonDumps x := rfl

theorem dumpArrItems_cons2 (x y : Json) (ys : List Json) :
    dumpArrItems (x :: y :: ys) = jsonDumps x ++ 44 :: dumpArrItems (y :: ys) := rfl

theorem dumpObjItems_single (k : PyStr) (v : Json) :
    dumpObjItems [(k, v)] = dumpStr k ++ 58 :: jsonDumps v := rfl

theorem dumpObjItems_cons2 (k : PyStr) (v : Json) (m : PyStr × Json)
    (ms : List (PyStr × Json)) :
    dumpObjItems ((k, v) :: m :: ms) =
      dumpStr k ++ 58 :: jsonDumps v ++ 44 :: dumpObjItems (m :: ms) := rfl

/-- Every serialized value starts with one of a few characters, none of
which is whitespace, a separator, or a closing bracket. -/
theorem jsonDumps_cons (v : Json) :
    ∃ c t, jsonDumps v = c :: t ∧
      (c = 34 ∨ c = 91 ∨ c = 123 ∨ c = 110 ∨ c = 116 ∨ c = 102 ∨ c = 45 ∨
       (48 ≤ c ∧ c ≤ 57)) := by
  cases v with
  | null => exact ⟨110, _, rfl, by omega⟩
  | bool b =>
    cases b
    · exact ⟨102, _, rfl, by omega⟩
    · exact ⟨116, _, rfl, by omega⟩
  | int n =>
    by_cases hneg : n < 0
    · refine ⟨45, natDec (-n).toNat, ?_, by omega⟩
      show intDec n = _
      simp [intDec, hneg]
    · obtain ⟨d, t, hdt, hd1, hd2⟩ := natDec_head_any n.toNat
      refine ⟨d, t, ?_, by omega⟩
      show intDec n = _
      simp [intDec, hneg]
      exact hdt
  | str s => exact ⟨34, _, rfl, by omega⟩
  | arr xs => exact ⟨91, _, rfl, by omega⟩
  | obj kvs => exact ⟨123, _, rfl, by omega⟩

theorem skipWs_dumps (v : Json) (r : PyStr) :
    skipWs (jsonDumps v ++ r) = jsonDumps v ++ r := by
  obtain ⟨c, t, hct, hc⟩ := jsonDumps_cons v
  rw [hct, List.cons_append]
  exact skipWs_cons_ne _ (by omega)

theorem skipWs_dumpArrItems (xs : List Json) (hne : xs ≠ []) (r : PyStr) :
    skipWs (dumpArrItems xs ++ r) = dumpArrItems xs ++ r := by
  match xs with
  | [y] =>
    rw [dumpArrItems_single]
    exact skipWs_dumps y r
  | y :: z :: ys =>
    rw [dumpArrItems_cons2, List.append_assoc]
    exact skipWs_dumps y _

theorem skipWs_dumpObjItems (kvs : List (PyStr × Json)) (hne : kvs ≠ [])
    (r : PyStr) :
    skipWs (dumpObjItems kvs ++ r) = dumpObjItems kvs ++ r := by
  obtain ⟨t, ht⟩ : ∃ t, dumpObjItems kvs = 34 :: t := by
    match kvs with
    | [(k, v)] => exact ⟨_, rfl⟩
    | (k, v) :: m :: ms => exact ⟨_, rfl⟩
  rw [ht, List.cons_append]
  exact skipWs_cons_ne _ (by omega)

/-! ### Well-formedness extraction -/

theorem jsonListWF_cons {x : Json} {xs : List Json}
    (h : jsonListWF (x :: xs) = true) :
    jsonWF x = true ∧ jsonListWF xs = true := by
  have : (jsonWF x && jsonListWF xs) = true := h
  simpa [Bool.and_eq_true] using this

theorem jsonObjWF_cons {k : PyStr} {v : Json} {kvs : List (PyStr × Json)}
    (h : jsonObjWF ((k, v) :: kvs) = true) :
    (∀ kv ∈ kvs, ¬kv.1 = k) ∧ wfStrB k = true ∧ jsonWF v = true ∧
      jsonObjWF kvs = true := by
  have h2 : (kvs.all (fun kv => !(kv.1 == k)) && wfStrB k && jsonWF v &&
      jsonObjWF kvs) = true := h
  simp only [Bool.and_eq_true, List.all_eq_true, Bool.not_eq_true',
    beq_eq_false_iff_ne, ne_eq] at h2
  exact ⟨h2.1.1.1, h2.1.1.2, h2.1.2, h2.2⟩

/-! ### Python dict reconstruction -/

theorem dictSet_append (d : List (PyStr × Json)) (k : PyStr) (v : Json)
    (h : ∀ kv ∈ d, ¬kv.1 = k) : dictSet d k v = d ++ [(k, v)] := by
  induction d with
  | nil => rfl
  | cons kv0 d' ih =>
    obtain ⟨k0, v0⟩ := kv0
    simp only [dictSet]
    rw [if_neg (h (k0, v0) (by simp))]
    rw [ih (fun kv hkv => h kv (by simp [hkv]))]
    rfl

theorem dictFromPairs_go (kvs : List (PyStr × Json)) :
    ∀ acc, jsonObjWF kvs = true →
    (∀ kv ∈ kvs, ∀ kv' ∈ acc, ¬kv.1 = kv'.1) →
    List.foldl (fun d kv => dictSet d kv.1 kv.2) acc kvs = acc ++ kvs := by
  induction kvs with
  | nil => intro acc _ _; simp
  | cons kv0 kvs' ih =>
    intro acc hwf hacc
    obtain ⟨k, v⟩ := kv0
    obtain ⟨hdist, _, _, hwf'⟩ := jsonObjWF_cons hwf
    simp only [List.foldl_cons]
    rw [show dictSet acc k v = acc ++ [(k, v)] from
      dictSet_append acc k v (fun kv' hkv' =>
        fun hEq => hacc (k, v) (by simp) kv' hkv' hEq.symm)]
    rw [ih (acc ++ [(k, v)]) hwf' ?_]
    · simp
    · intro kv hkv kv' hkv'
      rw [List.mem_append] at hkv'
      rcases hkv' with hkv' | hkv'
      · exact hacc kv (by simp [hkv]) kv' hkv'
      · simp at hkv'
        subst hkv'
        exact hdist kv hkv

theorem dictFromPairs_eq (kvs : List (PyStr × Json))
    (h : jsonObjWF kvs = true) : dictFromPairs kvs = kvs := by
  unfold dictFromPairs
  rw [dictFromPairs_go kvs [] h (by simp)]
  simp

/-! ### Stepping lemmas for members and elements -/

theorem parseMembers_close (fuel : Nat) (r : PyStr) :
    parseMembers (fuel + 1) true (125 :: r) = some ([], r) := rfl

theorem parseMembers_key (fuel : Nat) (first : Bool) (t : PyStr) :
    parseMembers (fuel + 1) first (34 :: t) =
      (parseStrBody t).bind (fun pk => parseColon fuel pk.1 (skipWs pk.2)) := rfl

theorem parseColon_go (fuel : Nat) (k : PyStr) (t : PyStr) :
    parseColon (fuel + 1) k (58 :: t) =
      (parseVal fuel (skipWs t)).bind (fun pv =>
        parseMemberSep fuel k pv.1 (skipWs pv.2)) := rfl

theorem parseMemberSep_comma (fuel : Nat) (k : PyStr) (v : Json) (t : PyStr) :
    parseMemberSep (fuel + 1) k v (44 :: t) =
      (parseMembers fuel false (skipWs t)).map
        (fun pm => ((k, v) :: pm.1, pm.2)) := rfl

theorem parseMemberSep_close (fuel : Nat) (k : PyStr) (v : Json) (t : PyStr) :
    parseMemberSep (fuel + 1) k v (125 :: t) = some ([(k, v)], t) := rfl

theorem parseElems_close (fuel : Nat) (r : PyStr) :
    parseElems (fuel + 1) true (93 :: r) = some ([], r) := rfl

theorem parseElems_step {c : Nat} (fuel : Nat) (first : Bool) (t : PyStr)
    (h93 : ¬c = 93) :
    parseElems (fuel + 1) first (c :: t) =
      (parseVal fuel (c :: t)).bind (fun pv =>
        parseElemSep fuel pv.1 (skipWs pv.2)) := by
  show (if c = 93 then (if first then some ([], t) else none)
    else (parseVal fuel (c :: t)).bind (fun pv =>
      parseElemSep fuel pv.1 (skipWs pv.2))) = _
  rw [if_neg h93]

theorem parseElemSep_comma (fuel : Nat) (v : Json) (t : PyStr) :
    parseElemSep (fuel + 1) v (44 :: t) =
      (parseElems fuel false (skipWs t)).map (fun pe => (v :: pe.1, pe.2)) := rfl

theorem parseElemSep_close (fuel : Nat) (v : Json) (t : PyStr) :
    parseElemSep (fuel + 1) v (93 :: t) = some ([v], t) := rfl

/-! ### The scanner inverts the serializer -/

theorem jsonWF_arr_iff (xs : List Json) :
    jsonWF (Json.arr xs) = jsonListWF xs := rfl

theorem jsonWF_obj_iff (kvs : List (PyStr × Json)) :
    jsonWF (Json.obj kvs) = jsonObjWF kvs := rfl

mutual

theorem jsonDumps_parseVal : ∀ (v : Json) (fuel : Nat) (rest : PyStr),
    jsonWF v = true → fsize v ≤ fuel → sepHead rest = true →
    parseVal fuel (jsonDumps v ++ rest) = some (v, rest)
  | .null, fuel, rest => fun _ hf hsep => by
      have h1 : fsize Json.null = 1 := rfl
      obtain ⟨f, rfl⟩ : ∃ f, fuel = f + 1 := ⟨fuel - 1, by omega⟩
      exact parseVal_null f rest
  | .bool true, fuel, rest => fun _ hf hsep => by
      have h1 : fsize (Json.bool true) = 1 := rfl
      obtain ⟨f, rfl⟩ : ∃ f, fuel = f + 1 := ⟨fuel - 1, by omega⟩
      exact parseVal_true f rest
  | .bool false, fuel, rest => fun _ hf hsep => by
      have h1 : fsize (Json.bool false) = 1 := rfl
      obtain ⟨f, rfl⟩ : ∃ f, fuel = f + 1 := ⟨fuel - 1, by omega⟩
      exact parseVal_false f rest
  | .int n, fuel, rest => fun _ hf hsep => by
      have h1 : fsize (Json.int n) = 1 := rfl
      obtain ⟨f, rfl⟩ : ∃ f, fuel = f + 1 := ⟨fuel - 1, by omega⟩
      exact parseVal_intDec n f rest hsep
  | .str s, fuel, rest => fun hwf hf hsep => by
      have h1 : fsize (Json.str s) = 1 := rfl
      obtain ⟨f, rfl⟩ : ∃ f, fuel = f + 1 := ⟨fuel - 1, by omega⟩
      have hshape : jsonDumps (Json.str s) ++ rest =
          34 :: (escString s ++ 34 :: rest) := by
        rw [jsonDumps_str]
        simp
      rw [hshape, parseVal_str, parseStrBody_escString s rest hwf]
      rfl
  | .arr xs, fuel, rest => fun hwf hf hsep => by
      cases xs with
      | nil =>
        have h1 : fsize (Json.arr []) = 2 := rfl
        obtain ⟨f, rfl⟩ : ∃ f, fuel = f + 2 := ⟨fuel - 2, by omega⟩
        show parseVal (f + 1 + 1) (91 :: 93 :: rest) = _
        rw [parseVal_arr, skipWs_cons_ne _ (by omega), parseElems_close]
        rfl
      | cons y ys =>
        have h1 : fsize (Json.arr (y :: ys)) = 1 + fsizeElems (y :: ys) := rfl
        have h3 : 1 ≤ fsizeElems (y :: ys) := by
          cases ys with
          | nil =>
            have : fsizeElems [y] = 2 + fsize y := rfl
            omega
          | cons z zs =>
            have : fsizeElems (y :: z :: zs) = 2 + fsize y + fsizeElems (z :: zs) := rfl
            omega
        obtain ⟨f, rfl⟩ : ∃ f, fuel = f + 1 := ⟨fuel - 1, by omega⟩
        have hshape : jsonDumps (Json.arr (y :: ys)) ++ rest =
            91 :: (dumpArrItems (y :: ys) ++ 93 :: rest) := by
          rw [jsonDumps_arr]
          simp
        rw [hshape, parseVal_arr, skipWs_dumpArrItems (y :: ys) (by simp) _]
        rw [dumpArrItems_parseElems (y :: ys) f rest true hwf (by simp) (by omega)]
        rfl
  | .obj kvs, fuel, rest => fun hwf hf hsep => by
      cases kvs with
      | nil =>
        have h1 : fsize (Json.obj []) = 2 := rfl
        obtain ⟨f, rfl⟩ : ∃ f, fuel = f + 2 := ⟨fuel - 2, by omega⟩
        show parseVal (f + 1 + 1) (123 :: 125 :: rest) = _
        rw [parseVal_obj, skipWs_cons_ne _ (by omega), parseMembers_close]
        rfl
      | cons m ms =>
        have h1 : fsize (Json.obj (m :: ms)) = 1 + fsizeMembers (m :: ms) := rfl
        have h3 : 1 ≤ fsizeMembers (m :: ms) := by
          obtain ⟨k, v⟩ := m
          cases ms with
          | nil =>
            have : fsizeMembers [(k, v)] = 3 + fsize v := rfl
            omega
          | cons m2 ms2 =>
            have : fsizeMembers ((k, v) :: m2 :: ms2) =
                3 + fsize v + fsizeMembers (m2 :: ms2) := rfl
            omega
        obtain ⟨f, rfl⟩ : ∃ f, fuel = f + 1 := ⟨fuel - 1, by omega⟩
        have hshape : jsonDumps (Json.obj (m :: ms)) ++ rest =
            123 :: (dumpObjItems (m :: ms) ++ 125 :: rest) := by
          rw [jsonDumps_obj]
          simp
        rw [hshape, parseVal_obj, skipWs_dumpObjItems (m :: ms) (by simp) _]
        rw [dumpObjItems_parseMembers (m :: ms) f rest true hwf (by simp) (by omega)]
        simp only [Option.map_some']
        rw [dictFromPairs_eq _ hwf]

termination_by v fuel rest => sizeOf v

theorem dumpArrItems_parseElems : ∀ (xs : List Json) (fuel : Nat) (rest : PyStr)
    (first : Bool), jsonListWF xs = true → xs ≠ [] → fsizeElems xs ≤ fuel →
    parseElems fuel first (dumpArrItems xs ++ 93 :: rest) = some (xs, rest)
  | [], _, _, _ => fun _ hne _ => absurd rfl hne
  | [x], fuel, rest, first => fun hwf _ hf => by
      have h1 : fsizeElems [x] = 2 + fsize x := rfl
      obtain ⟨hx, -⟩ := jsonListWF_cons hwf
      obtain ⟨f, rfl⟩ : ∃ f, fuel = f + 1 := ⟨fuel - 1, by omega⟩
      obtain ⟨c, t, hct, hc⟩ := jsonDumps_cons x
      rw [dumpArrItems_single, hct, List.cons_append]
      rw [parseElems_step f first _ (by omega)]
      rw [show (c :: (t ++ 93 :: rest)) = jsonDumps x ++ 93 :: rest from by
        rw [hct]; rfl]
      rw [jsonDumps_parseVal x f (93 :: rest) hx (by omega) (by rfl)]
      simp only [Option.some_bind]
      rw [skipWs_cons_ne _ (by omega)]
      obtain ⟨g, rfl⟩ : ∃ g, f = g + 1 := ⟨f - 1, by omega⟩
      rw [parseElemSep_close]
  | x :: y :: ys, fuel, rest, first => fun hwf _ hf => by
      have h1 : fsizeElems (x :: y :: ys) = 2 + fsize x + fsizeElems (y :: ys) := rfl
      obtain ⟨hx, hys⟩ := jsonListWF_cons hwf
      have h3 : 1 ≤ fsizeElems (y :: ys) := by
        cases ys with
        | nil =>
          have : fsizeElems [y] = 2 + fsize y := rfl
          omega
        | cons z zs =>
          have : fsizeElems (y :: z :: zs) = 2 + fsize y + fsizeElems (z :: zs) := rfl
          omega
      obtain ⟨f, rfl⟩ : ∃ f, fuel = f + 1 := ⟨fuel - 1, by omega⟩
      obtain ⟨c, t, hct, hc⟩ := jsonDumps_cons x
      rw [dumpArrItems_cons2, List.append_assoc, hct, List.cons_append]
      rw [parseElems_step f first _ (by omega)]
      rw [show (c :: (t ++ (44 :: dumpArrItems (y :: ys) ++ 93 :: rest))) =
          jsonDumps x ++ (44 :: (dumpArrItems (y :: ys) ++ 93 :: rest)) from by
        rw [hct]; simp]
      rw [jsonDumps_parseVal x f _ hx (by omega) (by rfl)]
      simp only [Option.some_bind]
      rw [skipWs_cons_ne _ (by omega)]
      obtain ⟨g, rfl⟩ : ∃ g, f = g + 1 := ⟨f - 1, by omega⟩
      rw [parseElemSep_comma, skipWs_dumpArrItems (y :: ys) (by simp) _]
      rw [dumpArrItems_parseElems (y :: ys) g rest false hys (by simp) (by omega)]
      rfl

termination_by xs fuel rest first => sizeOf xs

theorem dumpObjItems_parseMembers : ∀ (kvs : List (PyStr × Json)) (fuel : Nat)
    (rest : PyStr) (first : Bool), jsonObjWF kvs = true → kvs ≠ [] →
    fsizeMembers kvs ≤ fuel →
    parseMembers fuel first (dumpObjItems kvs ++ 125 :: rest) = some (kvs, rest)
  | [], _, _, _ => fun _ hne _ => absurd rfl hne
  | [(k, v)], fuel, rest, first => fun hwf _ hf => by
      have h1 : fsizeMembers [(k, v)] = 3 + fsize v := rfl
      obtain ⟨-, hk, hv, -⟩ := jsonObjWF_cons hwf
      obtain ⟨f, rfl⟩ : ∃ f, fuel = f + 1 := ⟨fuel - 1, by omega⟩
      have hshape : dumpObjItems [(k, v)] ++ 125 :: rest =
          34 :: (escString k ++ 34 :: (58 :: (jsonDumps v ++ 125 :: rest))) := by
        rw [dumpObjItems_single]
        simp [dumpStr]
      rw [hshape, parseMembers_key, parseStrBody_escString k _ hk]
      simp only [Option.some_bind]
      rw [skipWs_cons_ne _ (by omega)]
      obtain ⟨g, rfl⟩ : ∃ g, f = g + 1 := ⟨f - 1, by omega⟩
      rw [parseColon_go, skipWs_dumps v _]
      rw [jsonDumps_parseVal v g _ hv (by omega) (by rfl)]
      simp only [Option.some_bind]
      rw [skipWs_cons_ne _ (by omega)]
      obtain ⟨e, rfl⟩ : ∃ e, g = e + 1 := ⟨g - 1, by omega⟩
      rw [parseMemberSep_close]
  | (k, v) :: m :: ms, fuel, rest, first => fun hwf _ hf => by
      have h1 : fsizeMembers ((k, v) :: m :: ms) =
          3 + fsize v + fsizeMembers (m :: ms) := rfl
      obtain ⟨-, hk, hv, hms⟩ := jsonObjWF_cons hwf
      have h3 : 1 ≤ fsizeMembers (m :: ms) := by
        obtain ⟨k2, v2⟩ := m
        cases ms with
        | nil =>
          have : fsizeMembers [(k2, v2)] = 3 + fsize v2 := rfl
          omega
        | cons m2 ms2 =>
          have : fsizeMembers ((k2, v2) :: m2 :: ms2) =
              3 + fsize v2 + fsizeMembers (m2 :: ms2) := rfl
          omega
      obtain ⟨f, rfl⟩ : ∃ f, fuel = f + 1 := ⟨fuel - 1, by omega⟩
      have hshape : dumpObjItems ((k, v) :: m :: ms) ++ 125 :: rest =
          34 :: (escString k ++ 34 :: (58 :: (jsonDumps v ++
            44 :: (dumpObjItems (m :: ms) ++ 125 :: rest)))) := by
        rw [dumpObjItems_cons2]
        simp [dumpStr]
      rw [hshape, parseMembers_key, parseStrBody_escString k _ hk]
      simp only [Option.some_bind]
      rw [skipWs_cons_ne _ (by omega)]
      obtain ⟨g, rfl⟩ : ∃ g, f = g + 1 := ⟨f - 1, by omega⟩
      rw [parseColon_go, skipWs_dumps v _]
      rw [jsonDumps_parseVal v g _ hv (by omega) (by rfl)]
      simp only [Option.some_bind]
      rw [skipWs_cons_ne _ (by omega)]
      obtain ⟨e, rfl⟩ : ∃ e, g = e + 1 := ⟨g - 1, by omega⟩
      rw [parseMemberSep_comma, skipWs_dumpObjItems (m :: ms) (by simp) _]
      rw [dumpObjItems_parseMembers (m :: ms) e rest false hms (by simp) (by omega)]
      rfl
termination_by kvs fuel rest first => sizeOf kvs

end

mutual

theorem fsize_le : ∀ (v : Json), fsize v ≤ 2 * (jsonDumps v).length
  | .null => by
      have h1 : fsize Json.null = 1 := rfl
      have h2 : (jsonDumps Json.null).length = 4 := rfl
      omega
  | .bool true => by
      have h1 : fsize (Json.bool true) = 1 := rfl
      have h2 : (jsonDumps (Json.bool true)).length = 4 := rfl
      omega
  | .bool false => by
      have h1 : fsize (Json.bool false) = 1 := rfl
      have h2 : (jsonDumps (Json.bool false)).length = 5 := rfl
      omega
  | .int n => by
      have h1 : fsize (Json.int n) = 1 := rfl
      have h2 : 1 ≤ (jsonDumps (Json.int n)).length := by
        show 1 ≤ (intDec n).length
        by_cases hneg : n < 0
        · rw [show intDec n = 45 :: natDec (-n).toNat from by simp [intDec, hneg]]
          simp
        · obtain ⟨d, t, hdt, _, _⟩ := natDec_head_any n.toNat
          rw [show intDec n = natDec n.toNat from by simp [intDec, hneg], hdt]
          simp
      omega
  | .str s => by
      have h1 : fsize (Json.str s) = 1 := rfl
      have h2 : (jsonDumps (Json.str s)).length = (escString s).length + 2 := by
        rw [jsonDumps_str]
        simp
      omega
  | .arr xs => by
      cases xs with
      | nil =>
        have h1 : fsize (Json.arr []) = 2 := rfl
        have h2 : (jsonDumps (Json.arr [])).length = 2 := rfl
        omega
      | cons y ys =>
        have h1 : fsize (Json.arr (y :: ys)) = 1 + fsizeElems (y :: ys) := rfl
        have h2 : (jsonDumps (Json.arr (y :: ys))).length =
            (dumpArrItems (y :: ys)).length + 2 := by
          rw [jsonDumps_arr]
          simp
        have h3 := fsizeElems_le (y :: ys) (by simp)
        omega
  | .obj kvs => by
      cases kvs with
      | nil =>
        have h1 : fsize (Json.obj []) = 2 := rfl
        have h2 : (jsonDumps (Json.obj [])).length = 2 := rfl
        omega
      | cons m ms =>
        have h1 : fsize (Json.obj (m :: ms)) = 1 + fsizeMembers (m :: ms) := rfl
        have h2 : (jsonDumps (Json.obj (m :: ms))).length =
            (dumpObjItems (m :: ms)).length + 2 := by
          rw [jsonDumps_obj]
          simp
        have h3 := fsizeMembers_le (m :: ms) (by simp)
        omega

theorem fsizeElems_le : ∀ (xs : List Json), xs ≠ [] →
    fsizeElems xs ≤ 2 * (dumpArrItems xs).length + 2
  | [], hne => absurd rfl hne
  | [x], _ => by
      have h1 : fsizeElems [x] = 2 + fsize x := rfl
      have h2 := fsize_le x
      rw [dumpArrItems_single]
      omega
  | x :: y :: ys, _ => by
      have h1 : fsizeElems (x :: y :: ys) = 2 + fsize x + fsizeElems (y :: ys) := rfl
      have h2 := fsize_le x
      have h4 := fsizeElems_le (y :: ys) (by simp)
      rw [dumpArrItems_cons2]
      simp only [List.length_append, List.length_cons]
      omega

theorem fsizeMembers_le : ∀ (kvs : List (PyStr × Json)), kvs ≠ [] →
    fsizeMembers kvs ≤ 2 * (dumpObjItems kvs).length + 2
  | [], hne => absurd rfl hne
  | [(k, v)], _ => by
      have h1 : fsizeMembers [(k, v)] = 3 + fsize v := rfl
      have h2 := fsize_le v
      have hk : (dumpStr k).length = (escString k).length + 2 := by
        simp [dumpStr]
      rw [dumpObjItems_single]
      simp only [List.length_append, List.length_cons]
      omega
  | (k, v) :: m :: ms, _ => by
      have h1 : fsizeMembers ((k, v) :: m :: ms) =
          3 + fsize v + fsizeMembers (m :: ms) := rfl
      have h2 := fsize_le v
      have h4 := fsizeMembers_le (m :: ms) (by simp)
      have hk : (dumpStr k).length = (escString k).length + 2 := by
        simp [dumpStr]
      rw [dumpObjItems_cons2]
      simp only [List.length_append, List.length_cons]
      omega

end

/-- `json.loads` inverts `json.dumps` on well-formed values. -/
theorem jsonLoads_jsonDumps (v : Json) (hwf : jsonWF v = true) :
    jsonLoads (jsonDumps v) = some v := by
  unfold jsonLoads
  have hskip : skipWs (jsonDumps v) = jsonDumps v := by
    have h := skipWs_dumps v []
    simpa using h
  rw [hskip]
  have hp : parseVal (2 * (jsonDumps v).length + 2) (jsonDumps v ++ []) =
      some (v, []) :=
    jsonDumps_parseVal v _ [] hwf (by have := fsize_le v; omega) rfl
  rw [List.append_nil] at hp
  rw [hp]
  rfl

/-! ## UTF-8 (Python `str.encode('utf-8')` / `bytes.decode('utf-8')`) -/

/-- Encode one code point; surrogates raise `UnicodeEncodeError` (`none`). -/
def utf8EncodeChar (c : Nat) : Option Bytes :=
  if c < 128 then some [c]
  else if c < 2048 then some [192 + c / 64, 128 + c % 64]
  else if 55296 ≤ c ∧ c ≤ 57343 then none
  else if c < 65536 then some [224 + c / 4096, 128 + c / 64 % 64, 128 + c % 64]
  else if c < 1114112 then
    some [240 + c / 262144, 128 + c / 4096 % 64, 128 + c / 64 % 64, 128 + c % 64]
  else none

def utf8Encode : PyStr → Option Bytes
  | [] => some []
  | c :: cs =>
    match utf8EncodeChar c, utf8Encode cs with
    | some b, some bs => some (b ++ bs)
    | _, _ => none

mutual

/-- Strict UTF-8 decoding (rejecting overlong forms, surrogates, and
out-of-range values), as Python's `utf-8` codec does; fuel-indexed (at
most two units per byte). -/
def utf8DecAux : Nat → Bytes → Option PyStr
  | 0, _ => none
  | fuel + 1, s =>
    match s with
    | [] => some []
    | b :: rest =>
      if b < 128 then (utf8DecAux fuel rest).map (fun t => b :: t)
      else if 194 ≤ b ∧ b ≤ 223 then utf8Dec2 fuel b rest
      else if 224 ≤ b ∧ b ≤ 239 then utf8Dec3 fuel b rest
      else if 240 ≤ b ∧ b ≤ 244 then utf8Dec4 fuel b rest
      else none

/-- Continuation of a two-byte sequence. -/
def utf8Dec2 : Nat → Nat → Bytes → Option PyStr
  | 0, _, _ => none
  | fuel + 1, b, s =>
    match s with
    | b2 :: rest2 =>
      if 128 ≤ b2 ∧ b2 ≤ 191 then
        (utf8DecAux fuel rest2).map (fun t => ((b - 192) * 64 + (b2 - 128)) :: t)
      else none
    | [] => none

/-- Continuation of a three-byte sequence (second-byte range depends on
the lead byte, excluding overlong forms and surrogates). -/
def utf8Dec3 : Nat → Nat → Bytes → Option PyStr
  | 0, _, _ => none
  | fuel + 1, b, s =>
    match s with
    | b2 :: b3 :: rest2 =>
      if (if b = 224 then 160 ≤ b2 ∧ b2 ≤ 191
          else if b = 237 then 128 ≤ b2 ∧ b2 ≤ 159
          else 128 ≤ b2 ∧ b2 ≤ 191) ∧ 128 ≤ b3 ∧ b3 ≤ 191 then
        (utf8DecAux fuel rest2).map
          (fun t => ((b - 224) * 4096 + (b2 - 128) * 64 + (b3 - 128)) :: t)
      else none
    | _ => none

/-- Continuation of a four-byte sequence. -/
def utf8Dec4 : Nat → Nat → Bytes → Option PyStr
  | 0, _, _ => none
  | fuel + 1, b, s =>
    match s with
    | b2 :: b3 :: b4 :: rest2 =>
      if (if b = 240 then 144 ≤ b2 ∧ b2 ≤ 191
          else if b = 244 then 128 ≤ b2 ∧ b2 ≤ 143
          else 128 ≤ b2 ∧ b2 ≤ 191) ∧ 128 ≤ b3 ∧ b3 ≤ 191 ∧ 128 ≤ b4 ∧ b4 ≤ 191 then
        (utf8DecAux fuel rest2).map
          (fun t => ((b - 240) * 262144 + (b2 - 128) * 4096 +
            (b3 - 128) * 64 + (b4 - 128)) :: t)
      else none
    | _ => none

end

def utf8Decode (bs : Bytes) : Option PyStr := utf8DecAux (2 * bs.length + 1) bs

theorem utf8Encode_ascii : ∀ (s : PyStr), (∀ c ∈ s, c < 128) →
    utf8Encode s = some s
  | [], _ => rfl
  | c :: cs, h => by
      have hc : c < 128 := h c (by simp)
      have ih := utf8Encode_ascii cs (fun x hx => h x (by simp [hx]))
      show (match utf8EncodeChar c, utf8Encode cs with
        | some b, some bs => some (b ++ bs)
        | _, _ => none) = some (c :: cs)
      rw [show utf8EncodeChar c = some [c] from by simp [utf8EncodeChar, hc], ih]
      rfl

theorem utf8DecAux_ascii : ∀ (fuel : Nat) (bs : Bytes), bs.length < fuel →
    (∀ c ∈ bs, c < 128) → utf8DecAux fuel bs = some bs
  | _ + 1, [], _, _ => rfl
  | fuel + 1, b :: rest, hlen, h => by
      have hb : b < 128 := h b (by simp)
      have ih := utf8DecAux_ascii fuel rest (by simp at hlen; omega)
        (fun x hx => h x (by simp [hx]))
      show (if b < 128 then (utf8DecAux fuel rest).map (fun t => b :: t)
        else if 194 ≤ b ∧ b ≤ 223 then utf8Dec2 fuel b rest
        else if 224 ≤ b ∧ b ≤ 239 then utf8Dec3 fuel b rest
        else if 240 ≤ b ∧ b ≤ 244 then utf8Dec4 fuel b rest
        else none) = some (b :: rest)
      rw [if_pos hb, ih]
      rfl

theorem utf8Decode_ascii (bs : Bytes) (h : ∀ c ∈ bs, c < 128) :
    utf8Decode bs = some bs :=
  utf8DecAux_ascii (2 * bs.length + 1) bs (by omega) h

/-! ## Splitting on `'.'` (Python `str.split('.')`) -/

def splitDotAux : PyStr → PyStr → List PyStr
  | [], acc => [acc.reverse]
  | c :: rest, acc =>
    if c = 46 then acc.reverse :: splitDotAux rest []
    else splitDotAux rest (c :: acc)

def splitDot (s : PyStr) : List PyStr := splitDotAux s []

theorem splitDotAux_nodot_end : ∀ (a acc : PyStr), (∀ c ∈ a, c ≠ 46) →
    splitDotAux a acc = [acc.reverse ++ a]
  | [], acc, _ => by simp [splitDotAux]
  | c :: a', acc, h => by
      have hc : c ≠ 46 := h c (by simp)
      have ih := splitDotAux_nodot_end a' (c :: acc) (fun x hx => h x (by simp [hx]))
      show (if c = 46 then acc.reverse :: splitDotAux a' []
        else splitDotAux a' (c :: acc)) = _
      rw [if_neg hc, ih]
      simp

theorem splitDotAux_nodot_dot : ∀ (a b acc : PyStr), (∀ c ∈ a, c ≠ 46) →
    splitDotAux (a ++ 46 :: b) acc = (acc.reverse ++ a) :: splitDotAux b []
  | [], b, acc, _ => by
      show (if (46 : Nat) = 46 then acc.reverse :: splitDotAux b []
        else splitDotAux b (46 :: acc)) = _
      simp
  | c :: a', b, acc, h => by
      have hc : c ≠ 46 := h c (by simp)
      have ih := splitDotAux_nodot_dot a' b (c :: acc) (fun x hx => h x (by simp [hx]))
      show (if c = 46 then acc.reverse :: splitDotAux (a' ++ 46 :: b) []
        else splitDotAux (a' ++ 46 :: b) (c :: acc)) = _
      rw [if_neg hc, ih]
      simp

/-- Splitting `a.b.c` with dot-free components gives the three parts. -/
theorem splitDot_three (a b c : PyStr) (ha : ∀ x ∈ a, x ≠ 46)
    (hb : ∀ x ∈ b, x ≠ 46) (hc : ∀ x ∈ c, x ≠ 46) :
    splitDot (a ++ 46 :: (b ++ 46 :: c)) = [a, b, c] := by
  unfold splitDot
  rw [splitDotAux_nodot_dot a _ [] ha]
  rw [splitDotAux_nodot_dot b _ [] hb]
  rw [splitDotAux_nodot_end c [] hc]
  simp

/-! ## `utils.py` -/

/-- `utils.decode_jwt_header`: three segments, base64url-decode the first,
UTF-8 decode, JSON parse; `none` for any failure. -/
def decode_jwt_header (token : PyStr) : Option Json :=
  match splitDot token with
  | [p0, _, _] => (base64url_decode p0).bind (fun hb => (utf8Decode hb).bind jsonLoads)
  | _ => none

/-- `utils.decode_jwt_payload`: same on the second segment. -/
def decode_jwt_payload (token : PyStr) : Option Json :=
  match splitDot token with
  | [_, p1, _] => (base64url_decode p1).bind (fun pb => (utf8Decode pb).bind jsonLoads)
  | _ => none

/-- `utils.validate_jwt_format`: exactly three dot-separated segments and
both header and payload decode (`is not None`); no signature check. -/
def validate_jwt_format (token : PyStr) : Bool :=
  match splitDot token with
  | [_, _, _] => (decode_jwt_header token).isSome && (decode_jwt_payload token).isSome
  | _ => false

/-- Python `str.strip()` whitespace (the ASCII part). -/
def isPyWs (c : Nat) : Bool :=
  c = 32 || c = 9 || c = 10 || c = 13 || c = 11 || c = 12

def pyStrip (s : PyStr) : PyStr :=
  ((s.dropWhile (fun c => isPyWs c)).reverse.dropWhile (fun c => isPyWs c)).reverse

/-- Line splitting for text-mode file iteration (universal newlines:
`\n`, `\r\n` and `\r` all break lines; the empty pieces produced by this
simplification are removed by the caller's filter, so the post-filter
result agrees with Python's). -/
def splitNlAux : PyStr → PyStr → List PyStr
  | [], acc => [acc.reverse]
  | c :: rest, acc =>
    if c = 10 ∨ c = 13 then acc.reverse :: splitNlAux rest []
    else splitNlAux rest (c :: acc)

def splitNl (s : PyStr) : List PyStr := splitNlAux s []

/-- `utils.read_wordlist`: the file is `none` when the path is missing or
unreadable (the function prints a diagnostic and returns `[]`); otherwise
each line is stripped and empty lines are dropped. -/
def read_wordlist (file : Option PyStr) : List PyStr :=
  match file with
  | none => []
  | some content => ((splitNl content).map pyStrip).filter (fun l => ¬l = [])

/-- The console diagnostic emitted by `read_wordlist` (its only channel
besides the returned list): a missing file prints `Wordlist file not
found`; a readable file prints nothing. -/
inductive WlDiag where
  | ok : WlDiag
  | fileNotFound : WlDiag
deriving DecidableEq

def read_wordlist_console (file : Option PyStr) : WlDiag :=
  match file with
  | none => .fileNotFound
  | some _ => .ok

/-! ## Character-set facts: dumped JSON is ASCII, base64url output is
ASCII and dot-free -/

theorem hexDigit_lt (n : Nat) (h : n < 16) : hexDigit n < 128 := by
  unfold hexDigit
  split <;> omega

theorem hex4_ascii (n : Nat) : ∀ c ∈ hex4 n, c < 128 := by
  intro c hc
  simp only [hex4, List.mem_cons, List.not_mem_nil, or_false] at hc
  rcases hc with rfl | rfl | rfl | rfl <;>
    exact hexDigit_lt _ (Nat.mod_lt _ (by omega))

theorem escapeChar_ascii (c : Nat) : ∀ x ∈ escapeChar c, x < 128 := by
  intro x hx
  unfold escapeChar at hx
  split at hx
  · simp at hx; omega
  · split at hx
    · simp at hx; omega
    · split at hx
      · simp at hx; omega
      · split at hx
        · simp at hx; omega
        · split at hx
          · simp at hx; omega
          · split at hx
            · simp at hx; omega
            · split at hx
              · simp at hx; omega
              · split at hx
                · simp at hx; omega
                · split at hx
                  · rcases List.mem_cons.mp hx with rfl | hx
                    · omega
                    rcases List.mem_cons.mp hx with rfl | hx
                    · omega
                    exact hex4_ascii _ _ hx
                  · rcases List.mem_append.mp hx with hx | hx
                    · rcases List.mem_cons.mp hx with rfl | hx
                      · omega
                      rcases List.mem_cons.mp hx with rfl | hx
                      · omega
                      exact hex4_ascii _ _ hx
                    · rcases List.mem_cons.mp hx with rfl | hx
                      · omega
                      rcases List.mem_cons.mp hx with rfl | hx
                      · omega
                      exact hex4_ascii _ _ hx

theorem escString_ascii : ∀ (s : PyStr), ∀ c ∈ escString s, c < 128
  | [], _, hc => absurd hc (by simp [escString])
  | c0 :: cs, c, hc => by
      have h : escString (c0 :: cs) = escapeChar c0 ++ escString cs := rfl
      rw [h, List.mem_append] at hc
      rcases hc with hc | hc
      · exact escapeChar_ascii c0 c hc
      · exact escString_ascii cs c hc

theorem dumpStr_ascii (s : PyStr) : ∀ c ∈ dumpStr s, c < 128 := by
  intro c hc
  rcases List.mem_cons.mp hc with rfl | hc
  · omega
  rcases List.mem_append.mp hc with hc | hc
  · exact escString_ascii s c hc
  · simp at hc; omega

theorem intDec_ascii (n : Int) : ∀ c ∈ intDec n, c < 128 := by
  intro c hc
  unfold intDec at hc
  split at hc
  · simp only [List.mem_cons] at hc
    rcases hc with rfl | hc
    · omega
    · have := natDec_digits _ c hc
      omega
  · have := natDec_digits _ c hc
    omega

mutual

theorem jsonDumps_ascii : ∀ (v : Json), ∀ c ∈ jsonDumps v, c < 128
  | .null => by decide
  | .bool true => by decide
  | .bool false => by decide
  | .int n => fun c hc => intDec_ascii n c hc
  | .str s => fun c hc => dumpStr_ascii s c hc
  | .arr xs => by
      intro c hc
      rw [jsonDumps_arr] at hc
      rcases List.mem_cons.mp hc with rfl | hc
      · omega
      rcases List.mem_append.mp hc with hc | hc
      · exact dumpArrItems_ascii xs c hc
      · simp at hc; omega
  | .obj kvs => by
      intro c hc
      rw [jsonDumps_obj] at hc
      rcases List.mem_cons.mp hc with rfl | hc
      · omega
      rcases List.mem_append.mp hc with hc | hc
      · exact dumpObjItems_ascii kvs c hc
      · simp at hc; omega
termination_by v => sizeOf v

theorem dumpArrItems_ascii : ∀ (xs : List Json), ∀ c ∈ dumpArrItems xs, c < 128
  | [] => by intro c hc; exact absurd hc (by simp [dumpArrItems])
  | [x] => fun c hc => jsonDumps_ascii x c hc
  | x :: y :: xs => by
      intro c hc
      have h : dumpArrItems (x :: y :: xs) =
        jsonDumps x ++ 44 :: dumpArrItems (y :: xs) := rfl
      rw [h] at hc
      rcases List.mem_append.mp hc with hc | hc
      · exact jsonDumps_ascii x c hc
      rcases List.mem_cons.mp hc with rfl | hc
      · omega
      · exact dumpArrItems_ascii (y :: xs) c hc
termination_by xs => sizeOf xs

theorem dumpObjItems_ascii :
    ∀ (kvs : List (PyStr × Json)), ∀ c ∈ dumpObjItems kvs, c < 128
  | [] => by intro c hc; exact absurd hc (by simp [dumpObjItems])
  | [(k, v)] => by
      intro c hc
      have h : dumpObjItems [(k, v)] = dumpStr k ++ 58 :: jsonDumps v := rfl
      rw [h] at hc
      rcases List.mem_append.mp hc with hc | hc
      · exact dumpStr_ascii k c hc
      rcases List.mem_cons.mp hc with rfl | hc
      · omega
      · exact jsonDumps_ascii v c hc
  | (k, v) :: kv2 :: kvs => by
      intro c hc
      have h : dumpObjItems ((k, v) :: kv2 :: kvs) =
        dumpStr k ++ 58 :: jsonDumps v ++ 44 :: dumpObjItems (kv2 :: kvs) := rfl
      rw [h] at hc
      rcases List.mem_append.mp hc with hc | hc
      · rcases List.mem_append.mp hc with hc | hc
        · exact dumpStr_ascii k c hc
        rcases List.mem_cons.mp hc with rfl | hc
        · omega
        · exact jsonDumps_ascii v c hc
      · rcases List.mem_cons.mp hc with rfl | hc
        · omega
        · exact dumpObjItems_ascii (kv2 :: kvs) c hc
termination_by kvs => sizeOf kvs

end

/-- The base64url alphabet contains no `'.'` and is ASCII. -/
theorem b64encNoPad_charset : ∀ (b : Bytes), (∀ x ∈ b, x < 256) →
    ∀ c ∈ b64encNoPad b, c < 128 ∧ c ≠ 46
  | [], _, c, hc => absurd hc (by simp [b64encNoPad])
  | [b1], h, c, hc => by
      have hb1 : b1 < 256 := h b1 (by simp)
      have f1 := b64Char_facts ⟨b1 / 4, by omega⟩
      have f2 := b64Char_facts ⟨b1 % 4 * 16, by omega⟩
      simp only [b64encNoPad, List.mem_cons, List.not_mem_nil, or_false] at hc
      rcases hc with rfl | rfl
      · exact ⟨f1.2.2.2.1, f1.2.2.2.2.1⟩
      · exact ⟨f2.2.2.2.1, f2.2.2.2.2.1⟩
  | [b1, b2], h, c, hc => by
      have hb1 : b1 < 256 := h b1 (by simp)
      have hb2 : b2 < 256 := h b2 (by simp)
      have f1 := b64Char_facts ⟨b1 / 4, by omega⟩
      have f2 := b64Char_facts ⟨b1 % 4 * 16 + b2 / 16, by omega⟩
      have f3 := b64Char_facts ⟨b2 % 16 * 4, by omega⟩
      simp only [b64encNoPad, List.mem_cons, List.not_mem_nil, or_false] at hc
      rcases hc with rfl | rfl | rfl
      · exact ⟨f1.2.2.2.1, f1.2.2.2.2.1⟩
      · exact ⟨f2.2.2.2.1, f2.2.2.2.2.1⟩
      · exact ⟨f3.2.2.2.1, f3.2.2.2.2.1⟩
  | b1 :: b2 :: b3 :: rest, h, c, hc => by
      have hb1 : b1 < 256 := h b1 (by simp)
      have hb2 : b2 < 256 := h b2 (by simp)
      have hb3 : b3 < 256 := h b3 (by simp)
      have f1 := b64Char_facts ⟨b1 / 4, by omega⟩
      have f2 := b64Char_facts ⟨b1 % 4 * 16 + b2 / 16, by omega⟩
      have f3 := b64Char_facts ⟨b2 % 16 * 4 + b3 / 64, by omega⟩
      have f4 := b64Char_facts ⟨b3 % 64, by omega⟩
      have ih := b64encNoPad_charset rest (fun x hx => h x (by simp [hx])) c
      have hsh : b64encNoPad (b1 :: b2 :: b3 :: rest) =
        urlSub (b64EncChar (b1 / 4)) :: urlSub (b64EncChar (b1 % 4 * 16 + b2 / 16)) ::
        urlSub (b64EncChar (b2 % 16 * 4 + b3 / 64)) :: urlSub (b64EncChar (b3 % 64)) ::
        b64encNoPad rest := rfl
      rw [hsh] at hc
      simp only [List.mem_cons] at hc
      rcases hc with rfl | rfl | rfl | rfl | hc
      · exact ⟨f1.2.2.2.1, f1.2.2.2.2.1⟩
      · exact ⟨f2.2.2.2.1, f2.2.2.2.2.1⟩
      · exact ⟨f3.2.2.2.1, f3.2.2.2.2.1⟩
      · exact ⟨f4.2.2.2.1, f4.2.2.2.2.1⟩
      · exact ih hc

theorem base64url_encode_charset (b : Bytes) (h : ∀ x ∈ b, x < 256) :
    ∀ c ∈ base64url_encode b, c < 128 ∧ c ≠ 46 := by
  rw [base64url_encode_eq b h]
  exact b64encNoPad_charset b h

/-! ## PyJWT (`jwt.encode` / `jwt.decode`) and the attack modules

The HMAC primitive is abstracted as a parameter
`sigF : PyStr → PyStr → Bytes` (key, signing input as the byte string of
an ASCII token prefix, resulting MAC bytes); the same oracle is used for
signing and verification, which is all the claims depend on. -/

/-- Python truthiness of a JSON value (`None`, `False`, `0`, `''`, `[]`
and `\x7b\x7d` are falsy). -/
def jsonTruthy : Json → Bool
  | .null => false
  | .bool b => b
  | .int n => if n = 0 then false else true
  | .str s => if s = [] then false else true
  | .arr [] => false
  | .arr (_ :: _) => true
  | .obj [] => false
  | .obj (_ :: _) => true

/-- Python `d.update(e)` (left-to-right assignments into `d`). -/
def dictUpdate (d e : List (PyStr × Json)) : List (PyStr × Json) :=
  e.foldl (fun acc kv => dictSet acc kv.1 kv.2) d

/-- Python `del d[k]`. -/
def dictRemove (d : List (PyStr × Json)) (k : PyStr) : List (PyStr × Json) :=
  d.filter (fun kv => !(kv.1 == k))

/-- Code-point lexicographic order on strings, as Python `<` on `str`
compares the keys during `sorted`. -/
def keyLt : PyStr → PyStr → Bool
  | [], [] => false
  | [], _ :: _ => true
  | _ :: _, [] => false
  | a :: as, b :: bs => if a < b then true else if b < a then false else keyLt as bs

def insertSorted (kv : PyStr × Json) : List (PyStr × Json) → List (PyStr × Json)
  | [] => [kv]
  | kv0 :: rest =>
    if keyLt kv.1 kv0.1 then kv :: kv0 :: rest else kv0 :: insertSorted kv rest

/-- `sorted` by key, as `json.dumps(..., sort_keys=True)` orders object
members (keys are distinct, so stability is moot). -/
def sortByKey (d : List (PyStr × Json)) : List (PyStr × Json) :=
  d.foldr insertSorted []

/-! `HMACAlgorithm.prepare_key` rejects keys that look like asymmetric
key material, raising `InvalidKeyError`: `pyjwt.utils.is_pem_format`
(a PEM BEGIN/END banner pair found anywhere in the key by `_PEM_RE`) and
`pyjwt.utils.is_ssh_key` (an SSH key-format marker as a substring, or a
leading whitespace-delimited token ending in the OpenSSH certificate
suffix).  The markers and character classes are ASCII, and an ASCII
substring of a string's UTF-8 encoding corresponds exactly to an ASCII
substring of its code points, so the byte-level checks are modelled on
code points. -/

def startsWithB : PyStr → PyStr → Bool
  | [], _ => true
  | _ :: _, [] => false
  | a :: as, b :: bs => a == b && startsWithB as bs

/-- Python `needle in haystack`. -/
def containsSub (needle : PyStr) : PyStr → Bool
  | [] => needle == []
  | c :: rest => startsWithB needle (c :: rest) || containsSub needle rest

/-- Strip a literal pattern from the front. -/
def stripLit : PyStr → PyStr → Option PyStr
  | [], s => some s
  | _ :: _, [] => none
  | a :: as, b :: bs => if a = b then stripLit as bs else none

def endsWithB (suffix s : PyStr) : Bool := startsWithB suffix.reverse s.reverse

/-- `pyjwt.utils._SSH_KEY_FORMATS`. -/
def sshKeyFormats : List PyStr :=
  [pyStr "ssh-ed25519", pyStr "ssh-rsa", pyStr "ssh-dss",
   pyStr "ecdsa-sha2-nistp256", pyStr "ecdsa-sha2-nistp384",
   pyStr "ecdsa-sha2-nistp521"]

/-- `pyjwt.utils._CERT_SUFFIX`. -/
def sshCertSuffix : PyStr := pyStr "-cert-v01@openssh.com"

def isSpaceTab (c : Nat) : Bool := c = 32 || c = 9

/-- The `\A(\S+)[ \t]+(\S+)` match of `_SSH_PUBKEY_RC`: the leading
non-whitespace token, provided spaces/tabs and at least one further
non-whitespace character follow it. -/
def sshPubkeyType (key : PyStr) : Option PyStr :=
  match key.takeWhile (fun c => !isPyWs c), key.dropWhile (fun c => !isPyWs c) with
  | [], _ => none
  | t1, rest =>
    match rest.dropWhile isSpaceTab with
    | c :: _ =>
      if rest.takeWhile isSpaceTab = [] then none
      else if isPyWs c then none else some t1
    | [] => none

/-- `pyjwt.utils.is_ssh_key`. -/
def isSshKeyB (key : PyStr) : Bool :=
  sshKeyFormats.any (fun m => containsSub m key) ||
  (match sshPubkeyType key with
   | some t1 => endsWithB sshCertSuffix t1
   | none => false)

/-- `pyjwt.utils._PEMS`. -/
def pemTypes : List PyStr :=
  [pyStr "CERTIFICATE", pyStr "TRUSTED CERTIFICATE", pyStr "PRIVATE KEY",
   pyStr "PUBLIC KEY", pyStr "ENCRYPTED PRIVATE KEY",
   pyStr "OPENSSH PRIVATE KEY", pyStr "DSA PRIVATE KEY",
   pyStr "RSA PRIVATE KEY", pyStr "RSA PUBLIC KEY", pyStr "EC PRIVATE KEY",
   pyStr "DH PARAMETERS", pyStr "NEW CERTIFICATE REQUEST",
   pyStr "CERTIFICATE REQUEST", pyStr "SSH2 PUBLIC KEY",
   pyStr "SSH2 ENCRYPTED PRIVATE KEY", pyStr "X509 CRL"]

def isDashSpace (c : Nat) : Bool := c = 45 || c = 32

/-- `\r?\n` (deterministic: a lone `\r` is not a line break here). -/
def stripCrLf : PyStr → Option PyStr
  | 13 :: 10 :: rest => some rest
  | 10 :: rest => some rest
  | _ => none

/-- The `----[- ]END name[- ]----` banner at this position; what follows
is unconstrained (the regex's trailing `\r?\n?` is optional, and `search`
allows a longer tail). -/
def pemEndBanner (name s : PyStr) : Bool :=
  match stripLit (pyStr "----") s with
  | some (c :: s2) =>
    isDashSpace c &&
      (match stripLit (pyStr "END ") s2 with
       | some s3 =>
         (match stripLit name s3 with
          | some (c2 :: s5) =>
            isDashSpace c2 && (stripLit (pyStr "----") s5).isSome
          | _ => false)
       | none => false)
  | _ => false

/-- `.+?\r?\n` followed by the END banner: a middle of at least one
character (`re.DOTALL`: line breaks included), a line break, the
banner.  Non-greediness only affects which match is found, not whether
one exists, so existence over all splits is the faithful reading of
`search`. -/
def pemMiddle (name : PyStr) : PyStr → Bool
  | [] => false
  | _ :: rest =>
    (match stripCrLf rest with
     | some s1 => pemEndBanner name s1
     | none => false) || pemMiddle name rest

/-- A whole PEM block starting at this position (alternation over the
banner types; backtracking makes the alternation order of the `_PEMS`
set irrelevant to whether a match exists). -/
def pemBeginHere (s : PyStr) : Bool :=
  match stripLit (pyStr "----") s with
  | some (c :: s2) =>
    isDashSpace c &&
      (match stripLit (pyStr "BEGIN ") s2 with
       | some s3 =>
         pemTypes.any (fun name =>
           match stripLit name s3 with
           | some (c2 :: s5) =>
             isDashSpace c2 &&
               (match stripLit (pyStr "----") s5 with
                | some s6 =>
                  (match stripCrLf s6 with
                   | some s7 => pemMiddle name s7
                   | none => false)
                | none => false)
           | _ => false)
       | none => false)
  | _ => false

/-- `pyjwt.utils.is_pem_format`: `_PEM_RE.search` over every start
position. -/
def isPemFormat : PyStr → Bool
  | [] => false
  | c :: rest => pemBeginHere (c :: rest) || isPemFormat rest

/-- `HMACAlgorithm.prepare_key` accepts this key (no `InvalidKeyError`). -/
def hmacKeyOk (key : PyStr) : Bool := !(isPemFormat key || isSshKeyB key)

/-- `api_jws.encode`: a truthy `alg` value in the caller's headers
overrides the `algorithm` parameter.  A truthy non-string value makes the
later algorithm lookup raise (modelled as `none`). -/
def resolveAlg (algorithm : PyStr) (headers : List (PyStr × Json)) : Option PyStr :=
  match dictGet headers (pyStr "alg") with
  | some (Json.str a) => if a = [] then some algorithm else some a
  | some v => if jsonTruthy v then none else some algorithm
  | none => some algorithm

/-- `api_jws._validate_headers`: a `kid` header must be a string. -/
def validHeadersKid (headers : List (PyStr × Json)) : Bool :=
  match dictGet headers (pyStr "kid") with
  | some (Json.str _) => true
  | some _ => false
  | none => true

/-- `headers.get("b64") is False` in `api_jws.encode`, which switches to
the unencoded-payload form (outside the modelled fragment). -/
def headersB64False (headers : List (PyStr × Json)) : Bool :=
  match dictGet headers (pyStr "b64") with
  | some (Json.bool false) => true
  | _ => false

/-- `if not header["typ"]: del header["typ"]` in `api_jws.encode`. -/
def pyjwtHeaderTyp (header : List (PyStr × Json)) : List (PyStr × Json) :=
  match dictGet header (pyStr "typ") with
  | some v => if jsonTruthy v then header else dictRemove header (pyStr "typ")
  | none => header

/-- `jwt.encode(payload, key, algorithm, headers)` (`api_jwt.encode` +
`api_jws.encode`) for the HS256 fragment the repository uses: the payload
must be a JSON object; the header is `\x7b"typ": "JWT", "alg": alg\x7d`
updated with the caller's headers, dropping a falsy `typ`, serialized with
`sort_keys=True` and compact separators; segments are
base64url-encoded and the signing input is signed with the key after
`HMACAlgorithm.prepare_key` accepts it (a PEM/SSH-looking key raises
`InvalidKeyError`, so the caller sees an exception, modelled `none`).
Non-HS256 algorithms and the `b64` unencoded-payload extension are
outside the modelled fragment (`none`); no claim exercises them. -/
def pyjwtEncode (sigF : PyStr → PyStr → Bytes) (payload : Json) (secret : PyStr)
    (algorithm : PyStr) (headers : List (PyStr × Json)) : Option PyStr :=
  match payload with
  | Json.obj _ =>
    if validHeadersKid headers = false then none
    else if headersB64False headers then none
    else
      match resolveAlg algorithm headers with
      | none => none
      | some alg =>
        if alg = pyStr "HS256" then
          if hmacKeyOk secret then
            match utf8Encode (jsonDumps (Json.obj (sortByKey
                (pyjwtHeaderTyp (dictUpdate [(pyStr "typ", Json.str (pyStr "JWT")),
                  (pyStr "alg", Json.str alg)] headers))))),
              utf8Encode (jsonDumps payload) with
            | some hb, some pb =>
              some (base64url_encode hb ++ [46] ++ base64url_encode pb ++ [46] ++
                base64url_encode (sigF secret
                  (base64url_encode hb ++ [46] ++ base64url_encode pb)))
            | _, _ => none
          else none
        else none
  | _ => none

/-- `if k not in header: header[k] = v` (an absent key appends). -/
def addKeyIfMissing (d : List (PyStr × Json)) (k : PyStr) (v : Json) :
    List (PyStr × Json) :=
  if hasKey d k then d else d ++ [(k, v)]

/-- `if 'typ' not in header: header['typ'] = 'JWT'`. -/
def addTypIfMissing (d : List (PyStr × Json)) : List (PyStr × Json) :=
  addKeyIfMissing d (pyStr "typ") (Json.str (pyStr "JWT"))

/-- `forge.forge_jwt(payload, secret, algorithm, custom_header)`:
parse the payload JSON (`none` on failure, the `JSONDecodeError` branch),
take the caller's header dict (or a fresh one when absent or falsy), add
`alg` and `typ` if missing, and call `jwt.encode`; any exception is
`none`. -/
def forge_jwt (sigF : PyStr → PyStr → Bytes) (payloadStr secret algorithm : PyStr)
    (customHeader : Option (List (PyStr × Json))) : Option PyStr :=
  match jsonLoads payloadStr with
  | none => none
  | some payload_dict =>
    pyjwtEncode sigF payload_dict secret algorithm
      (addTypIfMissing
        (addKeyIfMissing (match customHeader with | none => [] | some h => h)
          (pyStr "alg") (Json.str algorithm)))

/-- `alg_none.create_alg_none_jwt(payload, custom_header)`: parse the
payload JSON, set `alg` to `"none"` unconditionally, add `typ` if
missing, serialize header and payload compactly, and join the two
base64url segments with a trailing dot (empty signature). -/
def create_alg_none_jwt (payloadStr : PyStr)
    (customHeader : Option (List (PyStr × Json))) : Option PyStr :=
  match jsonLoads payloadStr with
  | none => none
  | some payload_dict =>
    match utf8Encode (jsonDumps (Json.obj (addTypIfMissing
        (dictSet (match customHeader with | none => [] | some h => h)
          (pyStr "alg") (Json.str (pyStr "none")))))),
      utf8Encode (jsonDumps payload_dict) with
    | some hb, some pb =>
      some (base64url_encode hb ++ [46] ++ base64url_encode pb ++ [46])
    | _, _ => none

/-- The value of the caller's `custom_header` dict after `forge_jwt`
returns: `header = custom_header or \x7b\x7d` aliases the caller's dict
when it is truthy (non-empty), so the `alg`/`typ` assignments at
forge.py:38-41 mutate it in place; an empty dict is falsy and a fresh
dict is used instead, leaving the caller's object untouched. -/
def forge_custom_header_after : List (PyStr × Json) → PyStr → List (PyStr × Json)
  | [], _ => []
  | kv :: rest, algorithm =>
    addTypIfMissing (addKeyIfMissing (kv :: rest) (pyStr "alg") (Json.str algorithm))

/-- The value of the caller's `custom_header` dict after
`create_alg_none_jwt` returns (alg_none.py:33-36, same aliasing). -/
def algnone_custom_header_after : List (PyStr × Json) → List (PyStr × Json)
  | [] => []
  | kv :: rest =>
    addTypIfMissing (dictSet (kv :: rest) (pyStr "alg") (Json.str (pyStr "none")))

/-- Outcome of `jwt.decode` as observed by the `try`/`except` arms in
`crack.crack_jwt` (`invalidKey` is `InvalidKeyError` from
`prepare_key`, caught by the generic `except Exception` arm). -/
inductive DecodeOutcome where
  | ok : Json → DecodeOutcome
  | decodeError : DecodeOutcome
  | invalidSignature : DecodeOutcome
  | invalidAlgorithm : DecodeOutcome
  | invalidKey : DecodeOutcome
  | expiredSignature : DecodeOutcome

/-- `api_jwt._validate_claims` under the options crack.py passes: with
`verify_exp` set, an integer `exp` strictly in the past raises
`ExpiredSignatureError` (leeway 0); a non-integer `exp` raises (modelled
as the decode-error arm — no claim exercises one). -/
def checkExp (payload : List (PyStr × Json)) (verifyExp : Bool) (now : Int) :
    DecodeOutcome :=
  if verifyExp then
    match dictGet payload (pyStr "exp") with
    | some (Json.int e) =>
      if e < now then .expiredSignature else .ok (Json.obj payload)
    | some _ => .decodeError
    | none => .ok (Json.obj payload)
  else .ok (Json.obj payload)

/-- `api_jwt._decode_payload`: the payload must parse as a JSON object. -/
def decodePayload (pBytes : Bytes) (verifyExp : Bool) (now : Int) : DecodeOutcome :=
  match (utf8Decode pBytes).bind jsonLoads with
  | some (Json.obj payload) => checkExp payload verifyExp now
  | some _ => .decodeError
  | none => .decodeError

/-- `api_jws._verify_signature` with `algorithms=['HS256']`: the header's
`alg` must be the string `"HS256"` (else `InvalidAlgorithmError`), then
`prepare_key` must accept the candidate key (else `InvalidKeyError`),
then the MAC of `header_segment.payload_segment` under the candidate key
must equal the token's signature bytes. -/
def checkAlgSig (sigF : PyStr → PyStr → Bytes) (secret h p : PyStr)
    (hdr : List (PyStr × Json)) (sig pBytes : Bytes) (verifyExp : Bool)
    (now : Int) : DecodeOutcome :=
  match dictGet hdr (pyStr "alg") with
  | some (Json.str a) =>
    if a = pyStr "HS256" then
      if hmacKeyOk secret then
        if sigF secret (h ++ [46] ++ p) = sig then
          decodePayload pBytes verifyExp now
        else .invalidSignature
      else .invalidKey
    else .invalidAlgorithm
  | _ => .invalidAlgorithm

/-- `api_jws._load` after the header JSON is in hand: the header must be
an object, then the payload and signature segments must base64-decode. -/
def jwtDecodeWithHeader (sigF : PyStr → PyStr → Bytes) (verifyExp : Bool)
    (now : Int) (secret h p s : PyStr) (hJson : Json) : DecodeOutcome :=
  match hJson with
  | Json.obj hdr =>
    match base64url_decode p with
    | none => .decodeError
    | some pBytes =>
      match base64url_decode s with
      | none => .decodeError
      | some sig => checkAlgSig sigF secret h p hdr sig pBytes verifyExp now
  | _ => .decodeError

/-- `jwt.decode` on three segments: decode and parse the header, then
`jwtDecodeWithHeader`. -/
def jwtDecodeSegments (sigF : PyStr → PyStr → Bytes) (verifyExp : Bool)
    (now : Int) (secret h p s : PyStr) : DecodeOutcome :=
  match (base64url_decode h).bind (fun hb => (utf8Decode hb).bind jsonLoads) with
  | none => .decodeError
  | some hJson => jwtDecodeWithHeader sigF verifyExp now secret h p s hJson

/-- `jwt.decode(token, secret, algorithms=['HS256'], options=...)` as
called from `crack_jwt` (a token without exactly three segments raises
`DecodeError`; `crack_jwt` only reaches this after format validation). -/
def jwtDecode (sigF : PyStr → PyStr → Bytes) (verifyExp : Bool) (now : Int)
    (secret token : PyStr) : DecodeOutcome :=
  match splitDot token with
  | [h, p, s] => jwtDecodeSegments sigF verifyExp now secret h p s
  | _ => .decodeError

/-- `True` for the `except` arms that `continue` the loop (wrong secret,
decode error, wrong algorithm); `False` for the two returning arms. -/
def decodeMisses : DecodeOutcome → Bool
  | .ok _ => false
  | .expiredSignature => false
  | _ => true

/-- The observable outcome of `crack_jwt`: the returned value together
with the distinct console report (crack.py prints a different panel for
each of these cases). -/
inductive CrackOutcome where
  | malformed : CrackOutcome
  | wordlistEmpty : CrackOutcome
  | matched : PyStr → Nat → CrackOutcome
  | matchedExpired : PyStr → Nat → CrackOutcome
  | exhausted : Nat → CrackOutcome
deriving DecidableEq

/-- The `for i, secret in enumerate(wordlist)` loop of `crack_jwt`:
success returns the secret with attempts `i+1`; `ExpiredSignatureError`
returns the secret with the expired panel; every other exception
continues; exhaustion reports `len(wordlist)` attempts. -/
def crackLoop (sigF : PyStr → PyStr → Bytes) (verifyExp : Bool) (now : Int)
    (token : PyStr) (total : Nat) : List PyStr → Nat → CrackOutcome
  | [], _ => .exhausted total
  | secret :: rest, i =>
    match jwtDecode sigF verifyExp now secret token with
    | .ok _ => .matched secret (i + 1)
    | .expiredSignature => .matchedExpired secret (i + 1)
    | _ => crackLoop sigF verifyExp now token total rest (i + 1)

/-- `crack_jwt` with the `verify_exp` option exposed as a parameter (the
source hard-codes it; see `crack_jwt` below). -/
def crack_jwt_opts (sigF : PyStr → PyStr → Bytes) (verifyExp : Bool) (now : Int)
    (token : PyStr) (file : Option PyStr) : CrackOutcome :=
  if validate_jwt_format token = false then .malformed
  else
    match read_wordlist file with
    | [] => .wordlistEmpty
    | w :: ws => crackLoop sigF verifyExp now token (w :: ws).length (w :: ws) 0

/-- `crack.crack_jwt(token, wordlist_path)`: the options dict at
crack.py:58-65 passes `verify_signature: True` and `verify_exp: False`
(all other verifications disabled; none is reachable without the
corresponding claim). -/
def crack_jwt (sigF : PyStr → PyStr → Bytes) (now : Int) (token : PyStr)
    (file : Option PyStr) : CrackOutcome :=
  crack_jwt_opts sigF false now token file

/-- Number of candidates handed to `jwt.decode` by the loop. -/
def crackLoopCalls (sigF : PyStr → PyStr → Bytes) (verifyExp : Bool) (now : Int)
    (token : PyStr) : List PyStr → Nat
  | [] => 0
  | secret :: rest =>
    match jwtDecode sigF verifyExp now secret token with
    | .ok _ => 1
    | .expiredSignature => 1
    | _ => 1 + crackLoopCalls sigF verifyExp now token rest

/-- Number of candidates `crack_jwt` evaluates in total. -/
def crackCalls (sigF : PyStr → PyStr → Bytes) (now : Int) (token : PyStr)
    (file : Option PyStr) : Nat :=
  if validate_jwt_format token = false then 0
  else crackLoopCalls sigF false now token (read_wordlist file)

/-! ## Dictionary helper lemmas -/

theorem hasKey_cons (k0 : PyStr) (v0 : Json) (l : List (PyStr × Json)) (k : PyStr) :
    hasKey ((k0, v0) :: l) k = ((k0 == k) || hasKey l k) := rfl

theorem dictGet_dictSet : ∀ (d : List (PyStr × Json)) (k : PyStr) (v : Json),
    dictGet (dictSet d k v) k = some v
  | [], k, v => by
      show (if k = k then some v else dictGet [] k) = some v
      rw [if_pos rfl]
  | (k0, v0) :: kvs, k, v => by
      by_cases h : k0 = k
      · show dictGet (if k0 = k then (k0, v) :: kvs else (k0, v0) :: dictSet kvs k v)
          k = some v
        rw [if_pos h]
        show (if k0 = k then some v else dictGet kvs k) = some v
        rw [if_pos h]
      · show dictGet (if k0 = k then (k0, v) :: kvs else (k0, v0) :: dictSet kvs k v)
          k = some v
        rw [if_neg h]
        show (if k0 = k then some v0 else dictGet (dictSet kvs k v) k) = some v
        rw [if_neg h]
        exact dictGet_dictSet kvs k v

theorem dictGet_append_left (d e : List (PyStr × Json)) (k : PyStr) (v : Json)
    (h : dictGet d k = some v) : dictGet (d ++ e) k = some v := by
  induction d with
  | nil => exact absurd h (by simp [dictGet])
  | cons kv rest ih =>
    obtain ⟨k0, v0⟩ := kv
    have h2 : (if k0 = k then some v0 else dictGet rest k) = some v := h
    rw [List.cons_append]
    show (if k0 = k then some v0 else dictGet (rest ++ e) k) = some v
    by_cases hk : k0 = k
    · rw [if_pos hk] at h2 ⊢
      exact h2
    · rw [if_neg hk] at h2 ⊢
      exact ih h2

theorem hasKey_dictSet_ne : ∀ (d : List (PyStr × Json)) (k k2 : PyStr) (v : Json),
    ¬k = k2 → hasKey (dictSet d k v) k2 = hasKey d k2
  | [], k, k2, v, hne => by
      show hasKey [(k, v)] k2 = hasKey [] k2
      rw [hasKey_cons]
      have : (k == k2) = false := by simpa using hne
      rw [this]
      rfl
  | (k0, v0) :: kvs, k, k2, v, hne => by
      by_cases h : k0 = k
      · show hasKey (if k0 = k then (k0, v) :: kvs else (k0, v0) :: dictSet kvs k v)
          k2 = _
        rw [if_pos h, hasKey_cons, hasKey_cons]
      · show hasKey (if k0 = k then (k0, v) :: kvs else (k0, v0) :: dictSet kvs k v)
          k2 = _
        rw [if_neg h, hasKey_cons, hasKey_cons, hasKey_dictSet_ne kvs k k2 v hne]

theorem dictSet_all (p : PyStr → Bool) :
    ∀ (d : List (PyStr × Json)) (k : PyStr) (v : Json),
      d.all (fun kv => p kv.1) = true → p k = true →
      (dictSet d k v).all (fun kv => p kv.1) = true
  | [], k, v, _, hk => by
      show List.all [(k, v)] (fun kv => p kv.1) = true
      simp [hk]
  | (k0, v0) :: kvs, k, v, hd, hk => by
      simp only [List.all_cons, Bool.and_eq_true] at hd
      by_cases h : k0 = k
      · show List.all (if k0 = k then (k0, v) :: kvs else (k0, v0) :: dictSet kvs k v)
          (fun kv => p kv.1) = true
        rw [if_pos h]
        simp [List.all_cons, hd.1, hd.2]
      · show List.all (if k0 = k then (k0, v) :: kvs else (k0, v0) :: dictSet kvs k v)
          (fun kv => p kv.1) = true
        rw [if_neg h]
        simp [List.all_cons, hd.1, dictSet_all p kvs k v hd.2 hk]

theorem dictSet_length : ∀ (d : List (PyStr × Json)) (k : PyStr) (v : Json),
    d.length ≤ (dictSet d k v).length
  | [], _, _ => by simp [dictSet]
  | (k0, v0) :: kvs, k, v => by
      by_cases h : k0 = k
      · show _ ≤ (if k0 = k then (k0, v) :: kvs else (k0, v0) :: dictSet kvs k v).length
        rw [if_pos h]
        simp
      · show _ ≤ (if k0 = k then (k0, v) :: kvs else (k0, v0) :: dictSet kvs k v).length
        rw [if_neg h]
        have := dictSet_length kvs k v
        simp only [List.length_cons]
        omega

theorem jsonObjWF_dictSet : ∀ (d : List (PyStr × Json)) (k : PyStr) (v : Json),
    jsonObjWF d = true → wfStrB k = true → jsonWF v = true →
    jsonObjWF (dictSet d k v) = true
  | [], k, v, _, hk, hv => by
      show (List.all ([] : List (PyStr × Json)) (fun kv => !(kv.1 == k)) &&
        wfStrB k && jsonWF v && jsonObjWF []) = true
      simp [hk, hv]
      rfl
  | (k0, v0) :: kvs, k, v, hd, hk, hv => by
      obtain ⟨hdist, hk0, hv0, hrest⟩ := jsonObjWF_cons hd
      by_cases h : k0 = k
      · show jsonObjWF (if k0 = k then (k0, v) :: kvs else (k0, v0) :: dictSet kvs k v)
          = true
        rw [if_pos h]
        show (kvs.all (fun kv => !(kv.1 == k0)) && wfStrB k0 && jsonWF v &&
          jsonObjWF kvs) = true
        simp only [Bool.and_eq_true]
        refine ⟨⟨⟨?_, hk0⟩, hv⟩, hrest⟩
        rw [List.all_eq_true]
        intro kv hkv
        simp [hdist kv hkv]
      · show jsonObjWF (if k0 = k then (k0, v) :: kvs else (k0, v0) :: dictSet kvs k v)
          = true
        rw [if_neg h]
        show (List.all (dictSet kvs k v) (fun kv => !(kv.1 == k0)) && wfStrB k0 &&
          jsonWF v0 && jsonObjWF (dictSet kvs k v)) = true
        simp only [Bool.and_eq_true]
        refine ⟨⟨⟨?_, hk0⟩, hv0⟩, jsonObjWF_dictSet kvs k v hrest hk hv⟩
        refine dictSet_all (fun x => !(x == k0)) kvs k v ?_ ?_
        · rw [List.all_eq_true]
          intro kv hkv
          simp [hdist kv hkv]
        · have : ¬k = k0 := fun hh => h hh.symm
          simp [this]

theorem jsonObjWF_append_fresh : ∀ (d : List (PyStr × Json)) (k : PyStr) (v : Json),
    jsonObjWF d = true → hasKey d k = false → wfStrB k = true → jsonWF v = true →
    jsonObjWF (d ++ [(k, v)]) = true
  | [], k, v, _, _, hk, hv => by
      show (List.all ([] : List (PyStr × Json)) (fun kv => !(kv.1 == k)) &&
        wfStrB k && jsonWF v && jsonObjWF []) = true
      simp [hk, hv]
      rfl
  | (k0, v0) :: kvs, k, v, hd, hmiss, hk, hv => by
      obtain ⟨hdist, hk0, hv0, hrest⟩ := jsonObjWF_cons hd
      rw [hasKey_cons] at hmiss
      rcases Bool.or_eq_false_iff.mp hmiss with ⟨hne, hmiss2⟩
      rw [List.cons_append]
      show (List.all (kvs ++ [(k, v)]) (fun kv => !(kv.1 == k0)) && wfStrB k0 &&
        jsonWF v0 && jsonObjWF (kvs ++ [(k, v)])) = true
      simp only [Bool.and_eq_true]
      refine ⟨⟨⟨?_, hk0⟩, hv0⟩, jsonObjWF_append_fresh kvs k v hrest hmiss2 hk hv⟩
      rw [List.all_append]
      simp only [Bool.and_eq_true]
      constructor
      · rw [List.all_eq_true]
        intro kv hkv
        simp [hdist kv hkv]
      · simp only [List.all_cons, List.all_nil, Bool.and_true]
        have h1 : ¬k0 = k := by simpa using hne
        have h2 : ¬k = k0 := fun hh => h1 hh.symm
        simp [h2]

theorem addTypIfMissing_wf (d : List (PyStr × Json)) (h : jsonObjWF d = true) :
    jsonObjWF (addTypIfMissing d) = true := by
  unfold addTypIfMissing addKeyIfMissing
  split
  · exact h
  · next hmiss =>
      exact jsonObjWF_append_fresh d _ _ h (Bool.eq_false_iff.mpr hmiss)
        (by decide) (by decide)

theorem dictGet_addTypIfMissing (d : List (PyStr × Json)) (k : PyStr) (v : Json)
    (h : dictGet d k = some v) : dictGet (addTypIfMissing d) k = some v := by
  unfold addTypIfMissing addKeyIfMissing
  split
  · exact h
  · exact dictGet_append_left d _ k v h

/-! ## Behavior of the crack loop -/

theorem crackLoop_cons_miss (sigF : PyStr → PyStr → Bytes) (vE : Bool) (now : Int)
    (token : PyStr) (total : Nat) (w : PyStr) (rest : List PyStr) (i : Nat)
    (hm : decodeMisses (jwtDecode sigF vE now w token) = true) :
    crackLoop sigF vE now token total (w :: rest) i =
      crackLoop sigF vE now token total rest (i + 1) ∧
    crackLoopCalls sigF vE now token (w :: rest) =
      1 + crackLoopCalls sigF vE now token rest := by
  cases hr : jwtDecode sigF vE now w token with
  | ok v => rw [hr] at hm; simp [decodeMisses] at hm
  | expiredSignature => rw [hr] at hm; simp [decodeMisses] at hm
  | decodeError =>
      constructor <;> simp only [crackLoop, crackLoopCalls, hr]
  | invalidSignature =>
      constructor <;> simp only [crackLoop, crackLoopCalls, hr]
  | invalidAlgorithm =>
      constructor <;> simp only [crackLoop, crackLoopCalls, hr]
  | invalidKey =>
      constructor <;> simp only [crackLoop, crackLoopCalls, hr]

theorem crackLoop_hit_pre (sigF : PyStr → PyStr → Bytes) (vE : Bool) (now : Int)
    (token : PyStr) (total : Nat) :
    ∀ (pre : List PyStr) (w : PyStr) (post : List PyStr) (base : Nat) (v : Json),
      (∀ x ∈ pre, decodeMisses (jwtDecode sigF vE now x token) = true) →
      jwtDecode sigF vE now w token = DecodeOutcome.ok v →
      crackLoop sigF vE now token total (pre ++ w :: post) base =
        CrackOutcome.matched w (base + pre.length + 1) ∧
      crackLoopCalls sigF vE now token (pre ++ w :: post) = pre.length + 1
  | [], w, post, base, v, _, hh => by
      constructor
      · show crackLoop sigF vE now token total (w :: post) base =
          CrackOutcome.matched w (base + 0 + 1)
        simp only [crackLoop, hh]
      · show crackLoopCalls sigF vE now token (w :: post) = 0 + 1
        simp only [crackLoopCalls, hh]
  | x :: pre, w, post, base, v, hb, hh => by
      have hx : decodeMisses (jwtDecode sigF vE now x token) = true := hb x (by simp)
      have step := crackLoop_cons_miss sigF vE now token total x (pre ++ w :: post)
        base hx
      have ih := crackLoop_hit_pre sigF vE now token total pre w post (base + 1) v
        (fun y hy => hb y (by simp [hy])) hh
      constructor
      · rw [List.cons_append, step.1, ih.1]
        have : base + 1 + pre.length + 1 = base + (x :: pre).length + 1 := by
          simp only [List.length_cons]
          omega
        rw [this]
      · rw [List.cons_append, step.2, ih.2]
        simp only [List.length_cons]
        omega

theorem crackLoop_exhausts (sigF : PyStr → PyStr → Bytes) (vE : Bool) (now : Int)
    (token : PyStr) (total : Nat) :
    ∀ (wl : List PyStr) (base : Nat),
      (∀ w ∈ wl, decodeMisses (jwtDecode sigF vE now w token) = true) →
      crackLoop sigF vE now token total wl base = CrackOutcome.exhausted total
  | [], _, _ => rfl
  | w :: rest, base, h => by
      have step := crackLoop_cons_miss sigF vE now token total w rest base
        (h w (by simp))
      rw [step.1]
      exact crackLoop_exhausts sigF vE now token total rest (base + 1)
        (fun x hx => h x (by simp [hx]))

theorem crack_jwt_opts_run (sigF : PyStr → PyStr → Bytes) (vE : Bool) (now : Int)
    (token : PyStr) (file : Option PyStr) (w : PyStr) (ws : List PyStr)
    (hvalid : validate_jwt_format token = true)
    (hwl : read_wordlist file = w :: ws) :
    crack_jwt_opts sigF vE now token file =
      crackLoop sigF vE now token (w :: ws).length (w :: ws) 0 := by
  unfold crack_jwt_opts
  rw [hvalid, if_neg (by simp : ¬(true = false)), hwl]

theorem crackCalls_run (sigF : PyStr → PyStr → Bytes) (now : Int) (token : PyStr)
    (file : Option PyStr) (hvalid : validate_jwt_format token = true) :
    crackCalls sigF now token file =
      crackLoopCalls sigF false now token (read_wordlist file) := by
  unfold crackCalls
  rw [hvalid, if_neg (by simp : ¬(true = false))]

/-! ## Helper lemmas for header mutation (frame effects) -/

theorem hasKey_append (d e : List (PyStr × Json)) (k : PyStr) :
    hasKey (d ++ e) k = (hasKey d k || hasKey e k) := by
  simp [hasKey, List.any_append]

theorem hasKey_addKeyIfMissing_ne (d : List (PyStr × Json)) (k k2 : PyStr)
    (v : Json) (hne : ¬k = k2) :
    hasKey (addKeyIfMissing d k v) k2 = hasKey d k2 := by
  unfold addKeyIfMissing
  split
  · rfl
  · rw [hasKey_append, hasKey_cons]
    have : (k == k2) = false := by simpa using hne
    rw [this]
    show (hasKey d k2 || (false || hasKey [] k2)) = hasKey d k2
    simp [hasKey]

theorem addKeyIfMissing_length_ge (d : List (PyStr × Json)) (k : PyStr) (v : Json) :
    d.length ≤ (addKeyIfMissing d k v).length := by
  unfold addKeyIfMissing
  split
  · exact Nat.le_refl _
  · simp

theorem addTypIfMissing_length_of_missing (d : List (PyStr × Json))
    (h : hasKey d (pyStr "typ") = false) :
    (addTypIfMissing d).length = d.length + 1 := by
  unfold addTypIfMissing addKeyIfMissing
  rw [h]
  simp

/-! ## Example tokens and oracles for the concrete counterexamples -/

/-- A constant MAC oracle: every key reproduces the signature `[1, 2, 3]`. -/
def exSigF : PyStr → PyStr → Bytes := fun _ _ => [1, 2, 3]

/-- A MAC oracle under which only the key `"secret"` produces `[1, 2, 3]`. -/
def exSigF2 : PyStr → PyStr → Bytes :=
  fun k _ => if k = pyStr "secret" then [1, 2, 3] else [9]

/-- `eyJhbGciOiJIUzI1NiJ9.eyJleHAiOjEwMH0.AQID`: header `alg: HS256`,
payload `exp: 100` (in the past at verification time 1000), signature
`[1, 2, 3]`. -/
def exToken : PyStr :=
  base64url_encode (jsonDumps (Json.obj [(pyStr "alg", Json.str (pyStr "HS256"))])) ++
  [46] ++
  base64url_encode (jsonDumps (Json.obj [(pyStr "exp", Json.int 100)])) ++
  [46] ++ base64url_encode [1, 2, 3]

def exANh : PyStr :=
  base64url_encode (jsonDumps (Json.obj [(pyStr "alg", Json.str (pyStr "none"))]))

def exANp : PyStr := base64url_encode (jsonDumps (Json.obj []))

def exANs : PyStr := base64url_encode [1, 2, 3]

/-- A structurally valid token whose header says `alg: none` but which
carries a signature segment. -/
def exTokenAlgNone : PyStr := exANh ++ [46] ++ exANp ++ [46] ++ exANs

/-- A token whose header segment contains `'*'`, a character outside the
base64url alphabet. -/
def exStarTok : PyStr := pyStr "MTIz****.MTIz.x"

/-! ## The claims -/

/-- C1: the spec requires a distinct `MatchExpired` outcome when the
matching token is expired, but `crack_jwt` passes `verify_exp: False` to
`jwt.decode`, so `ExpiredSignatureError` is never raised and the
`except jwt.ExpiredSignatureError` arm (crack.py:96-115) is dead code: a
concrete token whose `exp` (100) is before the verification time (1000)
and whose secret is in the wordlist is reported as a plain match.
Re-enabling the option (the source's own dead branch) would give the
expired outcome, confirming the token is expired and the secret matches. -/
theorem c1_expired_is_plain_match :
    crack_jwt exSigF 1000 exToken (some (pyStr "secret")) =
      CrackOutcome.matched (pyStr "secret") 1 ∧
    crack_jwt_opts exSigF true 1000 exToken (some (pyStr "secret")) =
      CrackOutcome.matchedExpired (pyStr "secret") 1 ∧
    CrackOutcome.matched (pyStr "secret") 1 ≠
      CrackOutcome.matchedExpired (pyStr "secret") 1 := by
  decide

/-- C2 (amended): if every candidate before `w` (the list `pre`) makes
`jwt.decode` raise a continuing exception and `w` decodes successfully,
`crack_jwt` returns `w` as the secret with attempt index `|pre| + 1`, and
exactly `|pre| + 1` candidates are handed to the verifier.  (The original
claim, phrased in terms of the first candidate reproducing the signature,
fails when the header's `alg` is not HS256: see the counterexample.) -/
theorem c2_first_success (sigF : PyStr → PyStr → Bytes) (now : Int)
    (token : PyStr) (file : Option PyStr) (pre post : List PyStr) (w : PyStr)
    (v : Json)
    (hvalid : validate_jwt_format token = true)
    (hwl : read_wordlist file = pre ++ w :: post)
    (hbefore : ∀ x ∈ pre, decodeMisses (jwtDecode sigF false now x token) = true)
    (hhit : jwtDecode sigF false now w token = DecodeOutcome.ok v) :
    crack_jwt sigF now token file = CrackOutcome.matched w (pre.length + 1) ∧
    crackCalls sigF now token file = pre.length + 1 := by
  obtain ⟨y, ys, hys⟩ :=
    List.exists_cons_of_ne_nil (show pre ++ w :: post ≠ [] by simp)
  have hwl2 : read_wordlist file = y :: ys := by rw [hwl, hys]
  constructor
  · show crack_jwt_opts sigF false now token file = _
    rw [crack_jwt_opts_run sigF false now token file y ys hvalid hwl2, ← hys]
    have h2 := (crackLoop_hit_pre sigF false now token (y :: ys).length pre w post
      0 v hbefore hhit).1
    rw [show (0 : Nat) + pre.length + 1 = pre.length + 1 from by omega, ← hys] at h2
    exact h2
  · rw [crackCalls_run sigF now token file hvalid, hwl]
    exact (crackLoop_hit_pre sigF false now token 0 pre w post 0 v hbefore hhit).2

/-- C2, counterexample to the original phrasing: a structurally valid
token whose header is `alg: none`; the only wordlist candidate reproduces
the token's signature byte-for-byte (the decoded signature segment equals
the candidate's MAC of the signing input), yet `crack_jwt` ends with
`Exhausted`, because `jwt.decode(..., algorithms=['HS256'])` raises
`InvalidAlgorithmError` before the signature is ever compared and the
loop continues past the matching candidate. -/
theorem c2_counterexample :
    validate_jwt_format exTokenAlgNone = true ∧
    read_wordlist (some (pyStr "secret")) = [pyStr "secret"] ∧
    splitDot exTokenAlgNone = [exANh, exANp, exANs] ∧
    base64url_decode exANs =
      some (exSigF (pyStr "secret") (exANh ++ [46] ++ exANp)) ∧
    crack_jwt exSigF 1000 exTokenAlgNone (some (pyStr "secret")) =
      CrackOutcome.exhausted 1 := by
  decide

/-- C2 witness: with a key-sensitive oracle and wordlist
`["wrong", "secret"]`, the secret is found at attempt 2 and exactly two
candidates are evaluated. -/
theorem c2_witness :
    crack_jwt exSigF2 1000 exToken (some (pyStr "wrong" ++ [10] ++ pyStr "secret")) =
      CrackOutcome.matched (pyStr "secret") 2 ∧
    crackCalls exSigF2 1000 exToken (some (pyStr "wrong" ++ [10] ++ pyStr "secret")) =
      2 :=
  c2_first_success exSigF2 1000 exToken
    (some (pyStr "wrong" ++ [10] ++ pyStr "secret"))
    [pyStr "wrong"] [] (pyStr "secret") (Json.obj [(pyStr "exp", Json.int 100)])
    (by decide) (by decide) (by decide) rfl

/-- C3 (amended): for a structurally valid token and a *non-empty*
filtered wordlist none of whose candidates decodes successfully,
`crack_jwt` ends with `Exhausted` reporting `len(wordlist)` attempts.
(The original claim also covers the empty wordlist, where the code
instead takes the early `if not wordlist` return — a different reported
outcome than `Exhausted` with attempts 0: see the counterexample.) -/
theorem c3_exhausts_all (sigF : PyStr → PyStr → Bytes) (now : Int)
    (token : PyStr) (file : Option PyStr)
    (hvalid : validate_jwt_format token = true)
    (hne : read_wordlist file ≠ [])
    (hmiss : ∀ w ∈ read_wordlist file,
      decodeMisses (jwtDecode sigF false now w token) = true) :
    crack_jwt sigF now token file =
      CrackOutcome.exhausted (read_wordlist file).length := by
  obtain ⟨w, ws, hwl⟩ := List.exists_cons_of_ne_nil hne
  rw [hwl] at hmiss
  show crack_jwt_opts sigF false now token file = _
  rw [crack_jwt_opts_run sigF false now token file w ws hvalid hwl, hwl]
  exact crackLoop_exhausts sigF false now token (w :: ws).length (w :: ws) 0 hmiss

/-- C3, counterexample to the original phrasing: an existing-but-empty
wordlist file vacuously contains no candidate reproducing the signature,
but `crack_jwt` reports the empty-wordlist failure (crack.py:37-39), not
the `Exhausted` panel with attempts equal to 0. -/
theorem c3_counterexample :
    validate_jwt_format exToken = true ∧
    read_wordlist (some []) = [] ∧
    crack_jwt exSigF2 1000 exToken (some []) = CrackOutcome.wordlistEmpty ∧
    CrackOutcome.wordlistEmpty ≠ CrackOutcome.exhausted 0 := by
  decide

/-- C3 witness: wordlist `["wrong"]` against a token signed under a
different key is exhausted with 1 attempt. -/
theorem c3_witness :
    crack_jwt exSigF2 1000 exToken (some (pyStr "wrong")) =
      CrackOutcome.exhausted 1 :=
  c3_exhausts_all exSigF2 1000 exToken (some (pyStr "wrong"))
    (by decide) (by decide) (by decide)

/-- C4: a token failing structural validation makes `crack_jwt` return
the malformed outcome immediately — for any wordlist source, including a
missing one — and zero candidates are handed to the verifier. -/
theorem c4_malformed_short_circuit (sigF : PyStr → PyStr → Bytes) (now : Int)
    (token : PyStr) (file : Option PyStr)
    (hbad : validate_jwt_format token = false) :
    crack_jwt sigF now token file = CrackOutcome.malformed ∧
    crackCalls sigF now token file = 0 := by
  constructor
  · show crack_jwt_opts sigF false now token file = _
    unfold crack_jwt_opts
    rw [hbad, if_pos rfl]
  · unfold crackCalls
    rw [hbad, if_pos rfl]

/-- C4 witness: a dotless string is malformed; nothing is attempted. -/
theorem c4_witness :
    crack_jwt exSigF2 1000 (pyStr "notatoken") (some (pyStr "secret")) =
      CrackOutcome.malformed ∧
    crackCalls exSigF2 1000 (pyStr "notatoken") (some (pyStr "secret")) = 0 :=
  c4_malformed_short_circuit exSigF2 1000 (pyStr "notatoken")
    (some (pyStr "secret")) (by decide)

/-- C5 (amended): a missing/unreadable wordlist path and an existing file
with no usable lines both make `read_wordlist` return the same value `[]`
— the caller cannot distinguish them from the return value, and
`crack_jwt` maps both to the same outcome; the two conditions differ only
in the console diagnostic `read_wordlist` prints (file-not-found message
vs nothing).  (The original claim's `SourceUnavailable`, a distinct
error surfaced to the caller, does not exist in the code.) -/
theorem c5_missing_vs_empty :
    read_wordlist none = [] ∧
    read_wordlist (some []) = [] ∧
    read_wordlist_console none = WlDiag.fileNotFound ∧
    read_wordlist_console (some []) = WlDiag.ok ∧
    ∀ (sigF : PyStr → PyStr → Bytes) (now : Int) (token : PyStr),
      crack_jwt sigF now token none = crack_jwt sigF now token (some []) := by
  refine ⟨rfl, rfl, rfl, rfl, fun sigF now token => ?_⟩
  show crack_jwt_opts sigF false now token none =
    crack_jwt_opts sigF false now token (some [])
  unfold crack_jwt_opts
  rw [show read_wordlist none = ([] : List PyStr) from rfl,
    show read_wordlist (some []) = ([] : List PyStr) from rfl]

/-- C5 counterexample: the missing-file condition and the empty-file
condition produce identical caller-visible results — equal return values
and equal crack outcomes — so they are not surfaced as distinct
outcomes. -/
theorem c5_counterexample :
    read_wordlist none = read_wordlist (some []) ∧
    crack_jwt exSigF2 1000 exToken none = crack_jwt exSigF2 1000 exToken (some []) := by
  decide

/-- C7: base64url decoding inverts encoding on every byte string
(richer cases — input lengths ≡ 1, 2 mod 3 — exercise the re-padding
with 2 and 1 `'='` characters). -/
theorem c7_base64url_roundtrip (b : Bytes) (h : ∀ x ∈ b, x < 256) :
    base64url_decode (base64url_encode b) = some b :=
  base64url_decode_encode b h

/-- C7 witness: round trips of lengths 1, 2 and 3 (2, 1 and 0 padding
characters). -/
theorem c7_witness :
    base64url_decode (base64url_encode [104]) = some [104] ∧
    base64url_decode (base64url_encode [104, 105]) = some [104, 105] ∧
    base64url_decode (base64url_encode [104, 105, 106]) = some [104, 105, 106] :=
  ⟨c7_base64url_roundtrip [104] (by decide),
   c7_base64url_roundtrip [104, 105] (by decide),
   c7_base64url_roundtrip [104, 105, 106] (by decide)⟩

/-- C8 (amended): `validate_jwt_format` is `false` whenever the token
does not split into exactly three dot-separated segments — which covers
the empty string (one empty segment) and one-, two- and four-segment
inputs.  (The original claim's last clause fails: a segment may contain
characters outside the base64url alphabet and still validate, because
CPython's non-strict base64 decoder discards them — see the
counterexample.) -/
theorem c8_not_three_segments (token : PyStr)
    (h : (splitDot token).length ≠ 3) :
    validate_jwt_format token = false := by
  unfold validate_jwt_format
  rcases hsp : splitDot token with _ | ⟨a, _ | ⟨b, _ | ⟨c, _ | ⟨d, rest⟩⟩⟩⟩
  · rfl
  · rfl
  · rfl
  · rw [hsp] at h
    simp at h
  · rfl

/-- C8 witness: the empty string and one-, two- and four-segment inputs
all fail validation. -/
theorem c8_witness :
    validate_jwt_format (pyStr "") = false ∧
    validate_jwt_format (pyStr "abc") = false ∧
    validate_jwt_format (pyStr "a.b") = false ∧
    validate_jwt_format (pyStr "a.b.c.d") = false :=
  ⟨c8_not_three_segments _ (by decide), c8_not_three_segments _ (by decide),
   c8_not_three_segments _ (by decide), c8_not_three_segments _ (by decide)⟩

/-- C8 counterexample: `MTIz****.MTIz.x` — the header segment contains
`'*'` (42), which is outside the base64url alphabet (it decodes to no
sextet), yet the token validates, because `binascii` discards
non-alphabet characters and `MTIz` still decodes to the valid JSON
`123`. -/
theorem c8_counterexample :
    (42 ∈ pyStr "MTIz****") ∧
    b64DecChar (urlUnsub 42) = none ∧
    splitDot exStarTok = [pyStr "MTIz****", pyStr "MTIz", pyStr "x"] ∧
    validate_jwt_format exStarTok = true := by
  decide

/-- C10 (amended): when the caller's non-empty header dict does not yet
contain a `typ` key, both operations mutate the caller's own dict (the
aliasing of `header = custom_header or \x7b\x7d` makes the assignments act on
it), so its value after the call differs from its value before.  (The
original claim's unconditional "has been changed" fails for headers
already containing the final values — see the counterexample.) -/
theorem c10_header_mutated (hdr : List (PyStr × Json)) (algorithm : PyStr)
    (hne : hdr ≠ [])
    (htyp : hasKey hdr (pyStr "typ") = false) :
    forge_custom_header_after hdr algorithm ≠ hdr ∧
    algnone_custom_header_after hdr ≠ hdr := by
  obtain ⟨kv, rest, rfl⟩ : ∃ kv rest, hdr = kv :: rest := by
    rcases hdr with _ | ⟨kv, rest⟩
    · exact absurd rfl hne
    · exact ⟨kv, rest, rfl⟩
  constructor
  · show addTypIfMissing (addKeyIfMissing (kv :: rest) (pyStr "alg")
      (Json.str algorithm)) ≠ kv :: rest
    intro heq
    have h1 : hasKey (addKeyIfMissing (kv :: rest) (pyStr "alg")
        (Json.str algorithm)) (pyStr "typ") = false := by
      rw [hasKey_addKeyIfMissing_ne (kv :: rest) (pyStr "alg") (pyStr "typ") _
        (by decide)]
      exact htyp
    have h2 := addTypIfMissing_length_of_missing _ h1
    have h3 := addKeyIfMissing_length_ge (kv :: rest) (pyStr "alg")
      (Json.str algorithm)
    have h4 := congrArg List.length heq
    rw [h2] at h4
    omega
  · show addTypIfMissing (dictSet (kv :: rest) (pyStr "alg")
      (Json.str (pyStr "none"))) ≠ kv :: rest
    intro heq
    have h1 : hasKey (dictSet (kv :: rest) (pyStr "alg")
        (Json.str (pyStr "none"))) (pyStr "typ") = false := by
      rw [hasKey_dictSet_ne (kv :: rest) (pyStr "alg") (pyStr "typ") _
        (by decide)]
      exact htyp
    have h2 := addTypIfMissing_length_of_missing _ h1
    have h3 := dictSet_length (kv :: rest) (pyStr "alg") (Json.str (pyStr "none"))
    have h4 := congrArg List.length heq
    rw [h2] at h4
    omega

/-- C10 witness: a header `\x7b"sub": "x"\x7d` (non-empty, no `typ`) is changed
by both operations. -/
theorem c10_witness :
    forge_custom_header_after [(pyStr "sub", Json.str (pyStr "x"))]
      (pyStr "HS256") ≠ [(pyStr "sub", Json.str (pyStr "x"))] ∧
    algnone_custom_header_after [(pyStr "sub", Json.str (pyStr "x"))] ≠
      [(pyStr "sub", Json.str (pyStr "x"))] :=
  c10_header_mutated [(pyStr "sub", Json.str (pyStr "x"))] (pyStr "HS256")
    (by simp) (by decide)

/-! ## Composition lemmas for the token round trips -/

/-- The decode chain `base64url → utf-8 → json.loads` inverts
`json.dumps → utf-8 → base64url` on well-formed values. -/
theorem headerChain_of_dumps (v : Json) (hwf : jsonWF v = true) :
    (base64url_decode (base64url_encode (jsonDumps v))).bind
      (fun hb => (utf8Decode hb).bind jsonLoads) = some v := by
  have hascii := jsonDumps_ascii v
  rw [base64url_decode_encode _ (fun c hc => by have := hascii c hc; omega)]
  simp only [Option.some_bind]
  rw [utf8Decode_ascii _ hascii]
  simp only [Option.some_bind]
  exact jsonLoads_jsonDumps v hwf

theorem dumps_encode_nodot (v : Json) :
    ∀ c ∈ base64url_encode (jsonDumps v), c ≠ 46 :=
  fun c hc => (base64url_encode_charset _
    (fun x hx => by have := jsonDumps_ascii v x hx; omega) c hc).2

theorem bytes_encode_nodot (b : Bytes) (h : ∀ x ∈ b, x < 256) :
    ∀ c ∈ base64url_encode b, c ≠ 46 :=
  fun c hc => (base64url_encode_charset b h c hc).2

/-- Splitting `a.b.c` for dot-free segments, in the associativity the
token constructions produce. -/
theorem splitDot_token3 (a b c2 : PyStr) (ha : ∀ x ∈ a, x ≠ 46)
    (hb : ∀ x ∈ b, x ≠ 46) (hc : ∀ x ∈ c2, x ≠ 46) :
    splitDot (a ++ [46] ++ b ++ [46] ++ c2) = [a, b, c2] := by
  have hre : a ++ [46] ++ b ++ [46] ++ c2 = a ++ 46 :: (b ++ 46 :: c2) := by simp
  rw [hre]
  exact splitDot_three a b c2 ha hb hc

theorem decode_jwt_header_of (token h p s : PyStr) (hJ : Json)
    (hs : splitDot token = [h, p, s])
    (hh : (base64url_decode h).bind (fun hb => (utf8Decode hb).bind jsonLoads) =
      some hJ) :
    decode_jwt_header token = some hJ := by
  unfold decode_jwt_header
  rw [hs]
  exact hh

theorem validate_of (token h p s : PyStr) (hJ pJ : Json)
    (hs : splitDot token = [h, p, s])
    (hh : (base64url_decode h).bind (fun hb => (utf8Decode hb).bind jsonLoads) =
      some hJ)
    (hp : (base64url_decode p).bind (fun pb => (utf8Decode pb).bind jsonLoads) =
      some pJ) :
    validate_jwt_format token = true := by
  unfold validate_jwt_format decode_jwt_header decode_jwt_payload
  rw [hs]
  show (((base64url_decode h).bind (fun hb => (utf8Decode hb).bind jsonLoads)).isSome &&
    ((base64url_decode p).bind (fun pb => (utf8Decode pb).bind jsonLoads)).isSome) = true
  rw [hh, hp]
  rfl

theorem jwtDecode_split (sigF : PyStr → PyStr → Bytes) (vE : Bool) (now : Int)
    (secret token h p s : PyStr) (hs : splitDot token = [h, p, s]) :
    jwtDecode sigF vE now secret token =
      jwtDecodeSegments sigF vE now secret h p s := by
  unfold jwtDecode
  rw [hs]

theorem jwtDecodeSegments_header (sigF : PyStr → PyStr → Bytes) (vE : Bool)
    (now : Int) (secret h p s : PyStr) (hJ : Json)
    (hh : (base64url_decode h).bind (fun hb => (utf8Decode hb).bind jsonLoads) =
      some hJ) :
    jwtDecodeSegments sigF vE now secret h p s =
      jwtDecodeWithHeader sigF vE now secret h p s hJ := by
  unfold jwtDecodeSegments
  rw [hh]

theorem jwtDecodeWithHeader_run (sigF : PyStr → PyStr → Bytes) (vE : Bool)
    (now : Int) (secret h p s : PyStr) (hdr : List (PyStr × Json)) (pB sig : Bytes)
    (hp : base64url_decode p = some pB) (hsg : base64url_decode s = some sig) :
    jwtDecodeWithHeader sigF vE now secret h p s (Json.obj hdr) =
      checkAlgSig sigF secret h p hdr sig pB vE now := by
  unfold jwtDecodeWithHeader
  rw [hp, hsg]

theorem checkAlgSig_match (sigF : PyStr → PyStr → Bytes) (secret h p : PyStr)
    (hdr : List (PyStr × Json)) (sig pB : Bytes) (vE : Bool) (now : Int)
    (hkey : hmacKeyOk secret = true)
    (halg : dictGet hdr (pyStr "alg") = some (Json.str (pyStr "HS256")))
    (hs : sigF secret (h ++ [46] ++ p) = sig) :
    checkAlgSig sigF secret h p hdr sig pB vE now = decodePayload pB vE now := by
  unfold checkAlgSig
  rw [halg]
  show (if pyStr "HS256" = pyStr "HS256" then
    (if hmacKeyOk secret then
      (if sigF secret (h ++ [46] ++ p) = sig then decodePayload pB vE now
       else DecodeOutcome.invalidSignature)
     else DecodeOutcome.invalidKey)
    else DecodeOutcome.invalidAlgorithm) = _
  rw [if_pos rfl, if_pos hkey, if_pos hs]

theorem decodePayload_obj (pB : Bytes) (vE : Bool) (now : Int)
    (kvs : List (PyStr × Json))
    (hp : (utf8Decode pB).bind jsonLoads = some (Json.obj kvs)) :
    decodePayload pB vE now = checkExp kvs vE now := by
  unfold decodePayload
  rw [hp]

theorem crack_single (sigF : PyStr → PyStr → Bytes) (now : Int) (token : PyStr)
    (file : Option PyStr) (secret : PyStr) (v : Json)
    (hvalid : validate_jwt_format token = true)
    (hfile : read_wordlist file = [secret])
    (hdec : jwtDecode sigF false now secret token = DecodeOutcome.ok v) :
    crack_jwt sigF now token file = CrackOutcome.matched secret 1 := by
  show crack_jwt_opts sigF false now token file = _
  rw [crack_jwt_opts_run sigF false now token file secret [] hvalid hfile]
  have h := (crackLoop_hit_pre sigF false now token [secret].length [] secret [] 0
    v (by simp) hdec).1
  simpa using h

/-- The header `jwt.encode` produces for `algorithm='HS256'` with
forge's default header (sorted keys). -/
def hs256Headers : List (PyStr × Json) :=
  [(pyStr "alg", Json.str (pyStr "HS256")), (pyStr "typ", Json.str (pyStr "JWT"))]

/-- `eyJhbGciOiJIUzI1NiIsInR5cCI6IkpXVCJ9`. -/
def hs256H64 : PyStr := base64url_encode (jsonDumps (Json.obj hs256Headers))

theorem pyjwtEncode_hs256_default (sigF : PyStr → PyStr → Bytes)
    (kvs : List (PyStr × Json)) (secret : PyStr)
    (hkey : hmacKeyOk secret = true) :
    pyjwtEncode sigF (Json.obj kvs) secret (pyStr "HS256") hs256Headers =
      some (hs256H64 ++ [46] ++ base64url_encode (jsonDumps (Json.obj kvs)) ++
        [46] ++ base64url_encode (sigF secret (hs256H64 ++ [46] ++
          base64url_encode (jsonDumps (Json.obj kvs))))) := by
  have hpay := utf8Encode_ascii (jsonDumps (Json.obj kvs)) (jsonDumps_ascii _)
  unfold pyjwtEncode
  rw [hkey, hpay]
  rfl

/-- `forge_jwt` with the default algorithm and no custom header, for a
secret `prepare_key` accepts. -/
theorem forge_jwt_default (sigF : PyStr → PyStr → Bytes)
    (payloadStr secret : PyStr) (kvs : List (PyStr × Json))
    (hP : jsonLoads payloadStr = some (Json.obj kvs))
    (hkey : hmacKeyOk secret = true) :
    forge_jwt sigF payloadStr secret (pyStr "HS256") none =
      some (hs256H64 ++ [46] ++ base64url_encode (jsonDumps (Json.obj kvs)) ++
        [46] ++ base64url_encode (sigF secret (hs256H64 ++ [46] ++
          base64url_encode (jsonDumps (Json.obj kvs))))) := by
  unfold forge_jwt
  rw [hP]
  show pyjwtEncode sigF (Json.obj kvs) secret (pyStr "HS256")
    (addTypIfMissing (addKeyIfMissing [] (pyStr "alg")
      (Json.str (pyStr "HS256")))) = _
  exact pyjwtEncode_hs256_default sigF kvs secret hkey

/-- C6 (amended): forging any well-formed JSON object payload under
HS256 with any secret that `HMACAlgorithm.prepare_key` accepts (no PEM
banner or SSH key marker) yields a token that the verifier accepts under
that same secret (`jwt.decode` returns the payload), and that
`crack_jwt` cracks at the first attempt when the wordlist holds exactly
that secret.  (The original "every HMAC secret" fails for secrets that
look like asymmetric key material, e.g. any string containing
`ssh-rsa`: `prepare_key` raises `InvalidKeyError`, `forge_jwt` returns
`None`, and the crack loop skips such candidates — see the
counterexample.) -/
theorem c6_forge_then_crack (sigF : PyStr → PyStr → Bytes)
    (hsig : ∀ k m, ∀ x ∈ sigF k m, x < 256)
    (payloadStr secret : PyStr) (kvs : List (PyStr × Json)) (now : Int)
    (file : Option PyStr)
    (hkey : hmacKeyOk secret = true)
    (hP : jsonLoads payloadStr = some (Json.obj kvs))
    (hwf : jsonWF (Json.obj kvs) = true)
    (hfile : read_wordlist file = [secret]) :
    ∃ token,
      forge_jwt sigF payloadStr secret (pyStr "HS256") none = some token ∧
      jwtDecode sigF false now secret token = DecodeOutcome.ok (Json.obj kvs) ∧
      crack_jwt sigF now token file = CrackOutcome.matched secret 1 := by
  have hforge := forge_jwt_default sigF payloadStr secret kvs hP hkey
  have hsplit : splitDot (hs256H64 ++ [46] ++
      base64url_encode (jsonDumps (Json.obj kvs)) ++ [46] ++
      base64url_encode (sigF secret (hs256H64 ++ [46] ++
        base64url_encode (jsonDumps (Json.obj kvs))))) =
      [hs256H64, base64url_encode (jsonDumps (Json.obj kvs)),
       base64url_encode (sigF secret (hs256H64 ++ [46] ++
         base64url_encode (jsonDumps (Json.obj kvs))))] :=
    splitDot_token3 _ _ _ (dumps_encode_nodot (Json.obj hs256Headers))
      (dumps_encode_nodot (Json.obj kvs)) (bytes_encode_nodot _ (hsig _ _))
  have hheader : (base64url_decode hs256H64).bind
      (fun hb => (utf8Decode hb).bind jsonLoads) = some (Json.obj hs256Headers) :=
    headerChain_of_dumps (Json.obj hs256Headers) (by decide)
  have hpayChain : (base64url_decode (base64url_encode (jsonDumps (Json.obj kvs)))).bind
      (fun pb => (utf8Decode pb).bind jsonLoads) = some (Json.obj kvs) :=
    headerChain_of_dumps (Json.obj kvs) hwf
  have hval := validate_of _ _ _ _ _ _ hsplit hheader hpayChain
  have hpB : base64url_decode (base64url_encode (jsonDumps (Json.obj kvs))) =
      some (jsonDumps (Json.obj kvs)) :=
    base64url_decode_encode _
      (fun x hx => by have := jsonDumps_ascii (Json.obj kvs) x hx; omega)
  have hsB : base64url_decode (base64url_encode (sigF secret (hs256H64 ++ [46] ++
      base64url_encode (jsonDumps (Json.obj kvs))))) =
      some (sigF secret (hs256H64 ++ [46] ++
        base64url_encode (jsonDumps (Json.obj kvs)))) :=
    base64url_decode_encode _ (hsig _ _)
  have hpayB : (utf8Decode (jsonDumps (Json.obj kvs))).bind jsonLoads =
      some (Json.obj kvs) := by
    rw [utf8Decode_ascii _ (jsonDumps_ascii _)]
    simp only [Option.some_bind]
    exact jsonLoads_jsonDumps _ hwf
  have hdec : jwtDecode sigF false now secret (hs256H64 ++ [46] ++
      base64url_encode (jsonDumps (Json.obj kvs)) ++ [46] ++
      base64url_encode (sigF secret (hs256H64 ++ [46] ++
        base64url_encode (jsonDumps (Json.obj kvs))))) =
      DecodeOutcome.ok (Json.obj kvs) := by
    rw [jwtDecode_split sigF false now secret _ _ _ _ hsplit,
      jwtDecodeSegments_header sigF false now secret _ _ _ _ hheader,
      jwtDecodeWithHeader_run sigF false now secret _ _ _ _ _ _ hpB hsB,
      checkAlgSig_match sigF secret _ _ hs256Headers _ _ false now hkey rfl rfl,
      decodePayload_obj _ false now kvs hpayB]
    rfl
  exact ⟨_, hforge, hdec,
    crack_single sigF now _ file secret (Json.obj kvs) hval hfile hdec⟩

/-- C6 witness: the empty-object payload `\x7b\x7d`, secret `"s"` (accepted
by `prepare_key`), a single-entry wordlist and a concrete one-byte MAC
oracle. -/
theorem c6_witness :
    ∃ token,
      forge_jwt (fun _ _ => [0]) (pyStr "\x7b\x7d") (pyStr "s") (pyStr "HS256")
        none = some token ∧
      jwtDecode (fun _ _ => [0]) false 0 (pyStr "s") token =
        DecodeOutcome.ok (Json.obj []) ∧
      crack_jwt (fun _ _ => [0]) 0 token (some (pyStr "s")) =
        CrackOutcome.matched (pyStr "s") 1 :=
  c6_forge_then_crack (fun _ _ => [0])
    (fun _ _ x hx => by simp at hx; omega)
    (pyStr "\x7b\x7d") (pyStr "s") [] 0 (some (pyStr "s")) (by decide) rfl
    (by decide) rfl

/-- C6, counterexample to the original universal-secret phrasing: the
secret `"ssh-rsa hunter2"` contains an SSH key-format marker, so
`HMACAlgorithm.prepare_key` raises `InvalidKeyError`: `forge_jwt`
returns `None` instead of a token, and on the verify side a candidate
containing the marker makes `jwt.decode` raise before any signature
comparison, so the crack loop continues past it (generic
`except Exception`) and ends `Exhausted` even under an oracle for which
the candidate reproduces the signature. -/
theorem c6_counterexample :
    hmacKeyOk (pyStr "ssh-rsa hunter2") = false ∧
    forge_jwt exSigF (pyStr "\x7b\x7d") (pyStr "ssh-rsa hunter2")
      (pyStr "HS256") none = none ∧
    jwtDecode exSigF false 1000 (pyStr "ssh-rsa hunter2") exToken =
      DecodeOutcome.invalidKey ∧
    crack_jwt exSigF 1000 exToken (some (pyStr "ssh-rsa hunter2")) =
      CrackOutcome.exhausted 1 :=
  ⟨by decide, by decide, rfl, by decide⟩

/-- C9: whatever header the caller supplies (well-formed, e.g. one with
`alg: HS256`), `create_alg_none_jwt` forces `alg` to `"none"` in the
produced token's decoded header, and the token's third dot-separated
segment is the empty string. -/
theorem c9_alg_none_forced (payloadStr : PyStr) (pv : Json)
    (hdr : List (PyStr × Json))
    (hP : jsonLoads payloadStr = some pv)
    (hwf : jsonObjWF hdr = true) :
    ∃ h64 p64,
      create_alg_none_jwt payloadStr (some hdr) =
        some (h64 ++ [46] ++ p64 ++ [46]) ∧
      splitDot (h64 ++ [46] ++ p64 ++ [46]) = [h64, p64, []] ∧
      ∃ hj, decode_jwt_header (h64 ++ [46] ++ p64 ++ [46]) = some (Json.obj hj) ∧
        dictGet hj (pyStr "alg") = some (Json.str (pyStr "none")) := by
  have hH2wf : jsonObjWF (addTypIfMissing (dictSet hdr (pyStr "alg")
      (Json.str (pyStr "none")))) = true :=
    addTypIfMissing_wf _ (jsonObjWF_dictSet hdr _ _ hwf (by decide) (by decide))
  have hsplit : splitDot (base64url_encode (jsonDumps (Json.obj (addTypIfMissing
      (dictSet hdr (pyStr "alg") (Json.str (pyStr "none")))))) ++ [46] ++
      base64url_encode (jsonDumps pv) ++ [46]) =
      [base64url_encode (jsonDumps (Json.obj (addTypIfMissing
        (dictSet hdr (pyStr "alg") (Json.str (pyStr "none")))))),
       base64url_encode (jsonDumps pv), []] := by
    have hre : base64url_encode (jsonDumps (Json.obj (addTypIfMissing
        (dictSet hdr (pyStr "alg") (Json.str (pyStr "none")))))) ++ [46] ++
        base64url_encode (jsonDumps pv) ++ [46] =
        base64url_encode (jsonDumps (Json.obj (addTypIfMissing
          (dictSet hdr (pyStr "alg") (Json.str (pyStr "none")))))) ++ [46] ++
        base64url_encode (jsonDumps pv) ++ [46] ++ ([] : PyStr) := by simp
    rw [hre]
    exact splitDot_token3 _ _ [] (dumps_encode_nodot _) (dumps_encode_nodot pv)
      (fun x hx => absurd hx (List.not_mem_nil x))
  refine ⟨_, _, ?_, hsplit,
    ⟨addTypIfMissing (dictSet hdr (pyStr "alg") (Json.str (pyStr "none"))),
     decode_jwt_header_of _ _ _ _ _ hsplit (headerChain_of_dumps _ hH2wf),
     dictGet_addTypIfMissing _ _ _ (dictGet_dictSet hdr _ _)⟩⟩
  unfold create_alg_none_jwt
  rw [hP]
  show (match utf8Encode (jsonDumps (Json.obj (addTypIfMissing
      (dictSet hdr (pyStr "alg") (Json.str (pyStr "none")))))),
      utf8Encode (jsonDumps pv) with
    | some hb, some pb =>
      some (base64url_encode hb ++ [46] ++ base64url_encode pb ++ [46])
    | _, _ => none) = _
  rw [utf8Encode_ascii _ (jsonDumps_ascii _), utf8Encode_ascii _ (jsonDumps_ascii _)]

/-- C9 witness: payload `\x7b\x7d` and a caller header `\x7b"alg": "HS256"\x7d`,
which the construction overrides to `"none"`. -/
theorem c9_witness :
    ∃ h64 p64,
      create_alg_none_jwt (pyStr "\x7b\x7d")
        (some [(pyStr "alg", Json.str (pyStr "HS256"))]) =
        some (h64 ++ [46] ++ p64 ++ [46]) ∧
      splitDot (h64 ++ [46] ++ p64 ++ [46]) = [h64, p64, []] ∧
      ∃ hj, decode_jwt_header (h64 ++ [46] ++ p64 ++ [46]) = some (Json.obj hj) ∧
        dictGet hj (pyStr "alg") = some (Json.str (pyStr "none")) :=
  c9_alg_none_forced (pyStr "\x7b\x7d") (Json.obj [])
    [(pyStr "alg", Json.str (pyStr "HS256"))] rfl (by decide)

/-- C10 counterexample: a caller header that already carries the final
`alg`/`typ` values is value-identical after the call — the in-place
assignments change nothing the caller can observe — so the claim's
unconditional "has been changed rather than left untouched" does not
hold for every non-empty header. -/
theorem c10_counterexample :
    algnone_custom_header_after
      [(pyStr "alg", Json.str (pyStr "none")), (pyStr "typ", Json.str (pyStr "JWT"))] =
      [(pyStr "alg", Json.str (pyStr "none")), (pyStr "typ", Json.str (pyStr "JWT"))] ∧
    forge_custom_header_after
      [(pyStr "alg", Json.str (pyStr "HS256")), (pyStr "typ", Json.str (pyStr "JWT"))]
      (pyStr "HS256") =
      [(pyStr "alg", Json.str (pyStr "HS256")), (pyStr "typ", Json.str (pyStr "JWT"))] :=
  ⟨rfl, rfl⟩

end JwtAttacker
